import Mathlib

/-!
# dbcpp: connection pool, statement wrapper, field coercion chain, result sets,
PostgreSQL query helpers

A shallow embedding of the parts of `tcsantanello/dbcpp` that the checked
properties talk about, followed by the theorems.

* `std::shared_ptr< interface::Connection >` is a handle: an index into the
  heap of backend connections of a `World`.
* A backend connection is what the pool can observe of it: the answers of
  `connect()`, `test()` and `reconnect()`, and the calls it has received.
* Exceptions are values of `Error`; a function that can throw returns them.
* A loop whose number of rounds is not bounded by the size of an argument takes
  a bound on the rounds and returns `none` when the bound is reached.
-/

namespace dbcpp

/-! ## Errors -/

/-- The exception classes thrown by the embedded code. -/
inductive Error where
  | runtimeError (msg : String)
  | dbException (msg : String)
  | invalidArgument (msg : String)
  deriving DecidableEq, Repr

deriving instance DecidableEq for Except

/-! ## Backend connections and the driver -/

/-- The methods of `interface::Connection` the pool and the wrapper call. -/
inductive CxnCall where
  | connect
  | disconnect
  | reconnect
  | test
  | setAutoCommit (ac : Bool)
  | commit
  | rollback
  deriving DecidableEq, Repr

/-- A backend connection: what `connect()`, `test()` and `reconnect()` answer,
and the calls received so far, oldest first. -/
structure BackendCxn where
  connectOk : Bool
  testOk : Bool
  reconnectOk : Bool
  calls : List CxnCall
  deriving DecidableEq, Repr

/-- What `Driver::getDriver` followed by `driver->createConnection` yields for
one call of `Pool::connect`: no driver for the scheme (`getDriver` throws), a
null pointer, or a fresh connection with the given answers. -/
inductive DriverReply where
  | notFound
  | null
  | cxn (connectOk testOk reconnectOk : Bool)
  deriving DecidableEq, Repr

/-- Everything outside the pool object: the backend connections created so far
(a handle is a position in `heap`) and the replies the driver gives to the
coming `Pool::connect` calls. -/
structure World where
  heap : List BackendCxn
  driver : List DriverReply
  deriving DecidableEq, Repr

/-- Append call `c` to the log of the connection at position `h`. -/
def logCall : List BackendCxn → Nat → CxnCall → List BackendCxn
  | [], _, _ => []
  | b :: bs, 0, c => { b with calls := b.calls ++ [c] } :: bs
  | b :: bs, h + 1, c => b :: logCall bs h c

/-- The world after backend connection `h` received call `c`. -/
def World.call (w : World) (h : Nat) (c : CxnCall) : World :=
  { w with heap := logCall w.heap h c }

/-- Answer of `test()` on handle `h`. -/
def World.testOk (w : World) (h : Nat) : Bool :=
  match w.heap[h]? with
  | some b => b.testOk
  | none => false

/-- Answer of `reconnect()` on handle `h`. -/
def World.reconnectOk (w : World) (h : Nat) : Bool :=
  match w.heap[h]? with
  | some b => b.reconnectOk
  | none => false

/-- The argument of the last `setAutoCommit` call in a log, if any. -/
def lastAutoCommitOf : List CxnCall → Option Bool
  | [] => none
  | c :: cs =>
    match lastAutoCommitOf cs with
    | some b => some b
    | none =>
      match c with
      | .setAutoCommit ac => some ac
      | _ => none

/-- The last autocommit setting backend connection `h` has received. -/
def World.lastAutoCommit (w : World) (h : Nat) : Option Bool :=
  match w.heap[h]? with
  | some b => lastAutoCommitOf b.calls
  | none => none

/-! ## The generic Connection wrapper (internal/connection.hh) -/

/-- An `internal::Connection`: the wrapped handle and whether it carries the
pool's release callback (`poolRelease != nullptr`). The only callback the
repository ever installs is the lambda of `Pool::getConnection`, which calls
`addConnection( cxn )` on the pool. -/
structure Connection where
  connection : Nat
  poolRelease : Bool
  deriving DecidableEq, Repr

/-! ## The pool (internal/pool.hh, pool.cc, driver.cc) -/

/-- The data members of `internal::Pool` that the queue protocol uses. -/
structure Pool where
  connections : List Nat
  queue : List Nat
  reconnect : List Nat
  autoCommit : Bool
  deriving DecidableEq, Repr

/-- The position `std::find( begin, end, x ) - begin`, or `none` for `end`. -/
def findPos (x : Nat) : List Nat → Option Nat
  | [] => none
  | y :: ys => if y = x then some 0 else (findPos x ys).map (· + 1)

/-- The method `Pool::connect` of driver.cc. -/
def Pool.connect (p : Pool) (w : World) : Except Error Nat × World :=
  match w.driver with
  | [] => (.error (.runtimeError "Supporting database type not found"), w)
  | .notFound :: ds =>
    (.error (.runtimeError "Supporting database type not found"), { w with driver := ds })
  | .null :: ds =>
    (.error (.runtimeError "Connection create failed"), { w with driver := ds })
  | .cxn cOk tOk rOk :: ds =>
    let h := w.heap.length
    let w1 : World := { heap := w.heap ++ [⟨cOk, tOk, rOk, []⟩], driver := ds }
    let w2 := (w1.call h (.setAutoCommit p.autoCommit)).call h .connect
    if cOk then (.ok h, w2) else (.error (.runtimeError "Unable to connect"), w2)

/-- The method `Pool::addConnection`: the pushed index is
`connections.end( ) - found - 1`. -/
def Pool.addConnection (p : Pool) (cxn : Nat) : Pool :=
  match findPos cxn p.connections with
  | some pos => { p with queue := p.queue ++ [p.connections.length - pos - 1] }
  | none => p

/-- The method `Pool::addReconnect`, with the same index computation. -/
def Pool.addReconnect (p : Pool) (cxn : Nat) : Pool :=
  match findPos cxn p.connections with
  | some pos => { p with reconnect := p.reconnect ++ [p.connections.length - pos - 1] }
  | none => p

/-- How a call of `Pool::getConnection` ends. `spins`: the `do ... while ( true )`
loop polls an empty free-queue and changes nothing, so it returns only if
another thread pushes an index. `undefined`: `connections[ index ]` was read
past the end of the vector. -/
inductive GetResult where
  | returned (c : Connection)
  | threw (e : Error)
  | spins
  | undefined
  deriving DecidableEq, Repr

/-- The `do ... while ( true )` loop of `Pool::getConnection`; the list argument
is the free-queue still to be popped. -/
def Pool.getLoop (p : Pool) : List Nat → World → GetResult × Pool × World
  | [], w => (.spins, { p with queue := [] }, w)
  | index :: rest, w =>
    match p.connections[index]? with
    | none => (.undefined, { p with queue := rest }, w)
    | some ptr =>
      let w1 := w.call ptr .test
      if w.testOk ptr then
        (.returned ⟨ptr, true⟩, { p with queue := rest },
          w1.call ptr (.setAutoCommit p.autoCommit))
      else
        Pool.getLoop (p.addReconnect ptr) rest w1

/-- The method `Pool::getConnection`. -/
def Pool.getConnection (p : Pool) (w : World) : GetResult × Pool × World :=
  match p.queue with
  | [] =>
    match p.connect w with
    | (.error e, w1) => (.threw e, p, w1)
    | (.ok cxn, w1) =>
      if w1.testOk cxn then
        (.returned ⟨cxn, false⟩, p, w1.call cxn .test)
      else
        (.threw (.dbException "Unable to connect to the database"), p, w1.call cxn .test)
  | index :: rest => p.getLoop (index :: rest) w

/-- The method `Pool::setAutoCommit`, with the world passed through to make
visible what it does to the backend connections. -/
def Pool.setAutoCommit (p : Pool) (ac : Bool) (w : World) : Pool × World :=
  ({ p with autoCommit := ac }, w)

/-- The destructor `Connection::~Connection` of a wrapper handed out by pool
`p`: it calls the release callback, if there is one, with the wrapped handle. -/
def Connection.destroy (c : Connection) (p : Pool) : Pool :=
  if c.poolRelease then p.addConnection c.connection else p

/-- The `for` loop of the constructor `Pool::Pool`, `n` rounds still to run. -/
def Pool.fill : Nat → Pool → World → Except Error Pool × World
  | 0, p, w => (.ok p, w)
  | n + 1, p, w =>
    match p.connect w with
    | (.error e, w1) => (.error e, w1)
    | (.ok cxn, w1) =>
      let conns := p.connections ++ [cxn]
      Pool.fill n { p with connections := conns, queue := p.queue ++ [conns.length - 1] } w1

/-- The constructor `Pool::Pool`, up to the start of the worker thread. -/
def Pool.create (count : Nat) (autoCommit : Bool) (w : World) : Except Error Pool × World :=
  Pool.fill (max count 1) ⟨[], [], [], autoCommit⟩ w

/-- One pass of the worker over "Rebuild failed connections": `none` when
`connections[ index ]` is read past the end. -/
def Pool.reconnectStep (p : Pool) (w : World) : Option (Pool × World) :=
  match p.reconnect with
  | [] => some (p, w)
  | index :: rest =>
    match p.connections[index]? with
    | none => none
    | some ptr =>
      let p1 := { p with reconnect := rest }
      let w1 := w.call ptr .reconnect
      if w.reconnectOk ptr then some (p1.addConnection ptr, w1)
      else some (p1.addReconnect ptr, w1)

/-- How the worker's periodic sweep ends. -/
inductive SweepResult where
  | done
  | spins
  | undefined
  deriving DecidableEq, Repr

/-- The loop `for ( size = queue.size( ); size > 0; --size )` of the worker:
each round calls `getConnection( )`, swallows what it throws and destroys the
returned wrapper at once. -/
def Pool.sweepLoop : Nat → Pool → World → SweepResult × Pool × World
  | 0, p, w => (.done, p, w)
  | size + 1, p, w =>
    match p.getConnection w with
    | (.returned c, p1, w1) => Pool.sweepLoop size (c.destroy p1) w1
    | (.threw _, p1, w1) => Pool.sweepLoop size p1 w1
    | (.spins, p1, w1) => (.spins, p1, w1)
    | (.undefined, p1, w1) => (.undefined, p1, w1)

/-- The worker's sweep once the check period has expired. -/
def Pool.sweep (p : Pool) (w : World) : SweepResult × Pool × World :=
  match p.queue with
  | [] => (.done, p, w)
  | _ :: _ => Pool.sweepLoop p.queue.length p w

/-! ## Callers of the pool -/

/-- A pool in use: the pool, the world and the wrappers that are alive. -/
structure Sys where
  pool : Pool
  world : World
  live : List Connection
  deriving DecidableEq, Repr

/-- What can happen to a pool in use: a caller checks out a connection, a
caller destroys its `k`-th live wrapper, the worker runs its reconnect step or
its sweep, a backend connection changes its health. -/
inductive Op where
  | get
  | release (k : Nat)
  | reconnectStep
  | sweep
  | health (h : Nat) (testOk reconnectOk : Bool)
  deriving DecidableEq, Repr

/-- Set the answers of `test()` and `reconnect()` of connection `h`. -/
def setHealth : List BackendCxn → Nat → Bool → Bool → List BackendCxn
  | [], _, _, _ => []
  | b :: bs, 0, t, r => { b with testOk := t, reconnectOk := r } :: bs
  | b :: bs, h + 1, t, r => b :: setHealth bs h t r

/-- One operation on a pool in use. An operation that does not return
(`spins`, `undefined`) leaves the state where the code left it. -/
def Sys.step (s : Sys) : Op → Sys
  | .get =>
    match s.pool.getConnection s.world with
    | (.returned c, p, w) => ⟨p, w, s.live ++ [c]⟩
    | (_, p, w) => ⟨p, w, s.live⟩
  | .release k =>
    match s.live[k]? with
    | some c => ⟨c.destroy s.pool, s.world, s.live.eraseIdx k⟩
    | none => s
  | .reconnectStep =>
    match s.pool.reconnectStep s.world with
    | some (p, w) => ⟨p, w, s.live⟩
    | none => s
  | .sweep =>
    match s.pool.sweep s.world with
    | (_, p, w) => ⟨p, w, s.live⟩
  | .health h t r => ⟨s.pool, { s.world with heap := setHealth s.world.heap h t r }, s.live⟩

/-- Run a sequence of operations. -/
def Sys.run (s : Sys) : List Op → Sys
  | [] => s
  | op :: ops => (s.step op).run ops

/-- A freshly constructed pool of `count` slots in a world whose driver hands
out healthy connections (`n` of them), or `none` if construction throws. -/
def freshSys (count n : Nat) (autoCommit : Bool) : Option Sys :=
  match Pool.create count autoCommit ⟨[], List.replicate n (.cxn true true true)⟩ with
  | (.ok p, w) => some ⟨p, w, []⟩
  | (.error _, _) => none

/-- The backend handles of the live wrappers that carry the release callback. -/
def pooledHandles (live : List Connection) : List Nat :=
  (live.filter (·.poolRelease)).map (·.connection)

/-- The slots currently checked out: positions in `connections` of the handles
of the live pooled wrappers. -/
def checkedOut (s : Sys) : List Nat :=
  (pooledHandles s.live).filterMap (fun h => findPos h s.pool.connections)

/-- Occurrences of index `i` across free-queue, reconnect-queue and checked-out
slots. -/
def occurrences (s : Sys) (i : Nat) : Nat :=
  s.pool.queue.count i + s.pool.reconnect.count i + (checkedOut s).count i

/-- A pool of two slots, slot 0 checked out, autocommit default `false`. -/
def demoPool : Pool := ⟨[0, 1], [1], [], false⟩

/-- Two healthy backend connections, the first one handed out once. -/
def demoWorld : World :=
  ⟨[⟨true, true, true, [.setAutoCommit false, .connect, .test, .setAutoCommit false]⟩,
    ⟨true, true, true, [.setAutoCommit false, .connect]⟩], []⟩

/-! ## Canonical types (internal/base_types.hh) -/

/-- The enumeration `FieldType`; `NUMERIC` is an alias of `DECIMAL` and `TEXT`
of `CLOB`. -/
inductive FieldType where
  | UNKNOWN | TINYINT | SMALLINT | INTEGER | BIGINT | DECIMAL | FLOAT | DOUBLE | REAL
  | BIT | VARBIT | BYTE | VARBYTE | CHAR | VARCHAR | DATE | TIME | TIMESTAMP
  | INET_ADDRESS | MAC_ADDRESS | BLOB | CLOB | ROWID | BOOLEAN | JSON | UUID | XML
  deriving DecidableEq, Repr

/-- The host types that occur as binding operands. `nullptrT` is
`decltype( nullptr )`, which has no `FieldTypeDecodeEntry`. -/
inductive HostType where
  | bool | uint8 | int8 | uint16 | int16 | uint32 | int32 | uint64 | int64
  | float | double | longDouble | string | varByte | dbTime | nullptrT
  deriving DecidableEq, Repr

/-- The value `FieldTypeDecoder::type< T >::value`: the `FieldTypeDecodeEntry`
lines, and `UNKNOWN` from the primary template for every other type. -/
def FieldTypeDecoder.type : HostType → FieldType
  | .bool => .BOOLEAN
  | .uint8 => .BYTE
  | .int8 => .CHAR
  | .uint16 => .INTEGER
  | .int16 => .SMALLINT
  | .uint32 => .BIGINT
  | .int32 => .INTEGER
  | .uint64 => .BIGINT
  | .int64 => .BIGINT
  | .float => .REAL
  | .double => .DOUBLE
  | .string => .VARCHAR
  | .varByte => .VARBYTE
  | .dbTime => .TIMESTAMP
  | .longDouble => .UNKNOWN
  | .nullptrT => .UNKNOWN

/-! ## The generic Statement wrapper (internal/statement.hh) -/

/-- A value handed to a binding call: its host type and its content, written
out as text (the wrapper never looks at the content). -/
structure Value where
  type : HostType
  content : String
  deriving DecidableEq, Repr

/-- A typed pointer operand `T *`: null, or pointing to a value of type `T`. -/
inductive Ptr where
  | null (pointee : HostType)
  | pointsTo (v : Value)
  deriving DecidableEq, Repr

/-- A call received by the backend `interface::Statement`. For the two
executing calls `returned` tells whether the backend returned or raised. -/
inductive StmtCall where
  | reset
  | setParamNull (parameter : Nat) (type : FieldType)
  | setParam (parameter : Nat) (value : Value)
  | execute (returned : Bool)
  | executeUpdate (returned : Bool)
  deriving DecidableEq, Repr

/-- An `internal::Statement`: its members `nextParam` and `reset`, and the calls
its backend statement has received so far, oldest first. -/
structure Statement where
  nextParam : Nat
  reset : Bool
  calls : List StmtCall
  deriving DecidableEq, Repr

/-- The constructor `Statement( std::shared_ptr< statement_t > )`. -/
def Statement.new : Statement := ⟨0, false, []⟩

/-- The backend receives call `c`. -/
def Statement.send (s : Statement) (c : StmtCall) : Statement :=
  { s with calls := s.calls ++ [c] }

/-- The block `if ( reset ) { statement->reset( ); reset = false; }` that opens
every binding method. -/
def Statement.checkReset (s : Statement) : Statement :=
  if s.reset then { s.send .reset with reset := false } else s

/-- The method `setParamNull( size_t, Field::Type )`; `ans` is what the backend
answers. -/
def Statement.setParamNull (s : Statement) (parameter : Nat) (type : FieldType)
    (ans : Bool) : Bool × Statement :=
  (ans, s.checkReset.send (.setParamNull parameter type))

/-- The two by-value templates `setParam( size_t, T )`: for `bool` the value is
forwarded as `safebool`, for every other type as it is. -/
def Statement.setParamValue (s : Statement) (parameter : Nat) (value : Value)
    (ans : Bool) : Bool × Statement :=
  (ans, s.checkReset.send (.setParam parameter value))

/-- The template `setParam( size_t, T * )`. -/
def Statement.setParamPtr (s : Statement) (parameter : Nat) (value : Ptr)
    (ans : Bool) : Bool × Statement :=
  match value with
  | .null pointee => s.checkReset.setParamNull parameter (FieldTypeDecoder.type pointee) ans
  | .pointsTo v => s.checkReset.setParamValue parameter v ans

/-- The overload `setParam( size_t, const char * )`. -/
def Statement.setParamCStr (s : Statement) (parameter : Nat) (value : Option String)
    (ans : Bool) : Bool × Statement :=
  match value with
  | none => s.checkReset.setParamNull parameter (FieldTypeDecoder.type .string) ans
  | some text => (ans, s.checkReset.send (.setParam parameter ⟨.string, text⟩))

/-- The method `execute( )`; `raised` is the exception of the backend, if any. -/
def Statement.execute (s : Statement) (raised : Option Error) : Except Error Unit × Statement :=
  match raised with
  | some e => (.error e, s.send (.execute false))
  | none => (.ok (), { s.send (.execute true) with reset := true, nextParam := 0 })

/-- The method `executeUpdate( )`; `result` is the count the backend returns or
the exception it raises. -/
def Statement.executeUpdate (s : Statement) (result : Except Error Int) :
    Except Error Int × Statement :=
  match result with
  | .error e => (.error e, s.send (.executeUpdate false))
  | .ok updated =>
    (.ok updated, { s.send (.executeUpdate true) with reset := true, nextParam := 0 })

/-- The operator `operator<<( decltype( nullptr ) )`: `setParamNull( nextParam++,
... )` on the `size_t` counter. -/
def Statement.shiftNull (s : Statement) (ans : Bool) : Statement :=
  ({ s with nextParam := (s.nextParam + 1) % 2 ^ 64 }.setParamNull s.nextParam
    (FieldTypeDecoder.type .nullptrT) ans).2

/-- An operand of the template `operator<<( T value )`, by the `setParam`
overload that `setParam( nextParam++, value )` resolves to. -/
inductive Operand where
  | value (v : Value)
  | ptr (p : Ptr)
  | cstr (text : Option String)
  deriving DecidableEq, Repr

/-- The template `operator<<( T value )`: `setParam( nextParam++, value )` on
the `size_t` counter. -/
def Statement.shift (s : Statement) (operand : Operand) (ans : Bool) : Statement :=
  match operand with
  | .value v =>
    ({ s with nextParam := (s.nextParam + 1) % 2 ^ 64 }.setParamValue s.nextParam v ans).2
  | .ptr p =>
    ({ s with nextParam := (s.nextParam + 1) % 2 ^ 64 }.setParamPtr s.nextParam p ans).2
  | .cstr t =>
    ({ s with nextParam := (s.nextParam + 1) % 2 ^ 64 }.setParamCStr s.nextParam t ans).2

/-- A call on the Statement wrapper together with what the backend answers. -/
inductive StmtOp where
  | setParamNull (parameter : Nat) (type : FieldType) (ans : Bool)
  | setParamValue (parameter : Nat) (value : Value) (ans : Bool)
  | setParamPtr (parameter : Nat) (value : Ptr) (ans : Bool)
  | setParamCStr (parameter : Nat) (value : Option String) (ans : Bool)
  | shiftNull (ans : Bool)
  | shift (operand : Operand) (ans : Bool)
  | execute (raised : Option Error)
  | executeUpdate (result : Except Error Int)

/-- Whether the call is a binding call (`setParamNull`, a `setParam` overload
or `operator<<`). -/
def StmtOp.isBind : StmtOp → Bool
  | .execute _ => false
  | .executeUpdate _ => false
  | _ => true

/-- Whether the backend call is a binding. -/
def StmtCall.isBind : StmtCall → Bool
  | .setParamNull _ _ => true
  | .setParam _ _ => true
  | _ => false

/-- Whether the backend call is `execute( )` or `executeUpdate( )`. -/
def StmtCall.isExecution : StmtCall → Bool
  | .execute _ => true
  | .executeUpdate _ => true
  | _ => false

/-- The statement after one call on the wrapper. -/
def Statement.step (s : Statement) : StmtOp → Statement
  | .setParamNull i t a => (s.setParamNull i t a).2
  | .setParamValue i v a => (s.setParamValue i v a).2
  | .setParamPtr i p a => (s.setParamPtr i p a).2
  | .setParamCStr i t a => (s.setParamCStr i t a).2
  | .shiftNull a => s.shiftNull a
  | .shift o a => s.shift o a
  | .execute r => (s.execute r).2
  | .executeUpdate r => (s.executeUpdate r).2

/-- The statement after a sequence of calls on the wrapper. -/
def Statement.run (s : Statement) (ops : List StmtOp) : Statement :=
  ops.foldl Statement.step s

/-- Whether an execution is pending after call `c`, given whether one was
pending before it: `reset( )` clears, an execution that returned sets, every
other call keeps. -/
def pendingAfter (pending : Bool) : StmtCall → Bool
  | .reset => false
  | .execute true => true
  | .executeUpdate true => true
  | _ => pending

/-- Reading a backend call log from the oldest call on: has an execution
returned since the last `reset( )`, or since construction when there was no
`reset( )`? -/
def pendingExecution (log : List StmtCall) : Bool :=
  log.foldl pendingAfter false

/-- Whether the backend call is an execution that returned. -/
def StmtCall.isReturned : StmtCall → Bool
  | .execute true => true
  | .executeUpdate true => true
  | _ => false

/-- The calls the backend has received after the calls `ops` on a new
Statement wrapper. -/
def backendLog (ops : List StmtOp) : List StmtCall :=
  (Statement.new.run ops).calls

/-- What holds at every position of a backend log: a `reset( )` stands where
an execution is pending and is followed by a binding; a binding follows a
`reset( )` or stands where no execution is pending. -/
def LocalOK (L : List StmtCall) : Prop :=
  ∀ k, (L[k]? = some .reset →
      pendingExecution (L.take k) = true ∧ ∃ c, L[k + 1]? = some c ∧ c.isBind = true) ∧
    (∀ c, L[k]? = some c → c.isBind = true →
      (1 ≤ k ∧ L[k - 1]? = some .reset) ∨ pendingExecution (L.take k) = false)

/-! ## C library and stream functions used by the default getters

Strings are `std::string` values; their characters are read as a list. -/

/-- The function `isspace` of the C locale. -/
def isspace (c : Char) : Bool :=
  c = ' ' || c = '\t' || c = '\n' || c = '\x0b' || c = '\x0c' || c = '\r'

/-- The value of a character as a digit, letters counting from 10 as `strtoll`
reads them. -/
def digitValue (c : Char) : Option Nat :=
  if '0' ≤ c ∧ c ≤ '9' then some (c.toNat - '0'.toNat)
  else if 'a' ≤ c ∧ c ≤ 'z' then some (c.toNat - 'a'.toNat + 10)
  else if 'A' ≤ c ∧ c ≤ 'Z' then some (c.toNat - 'A'.toNat + 10)
  else none

/-- Read digits of the given base from the front of the text, continuing the
number `acc`; reading stops at the first character that is no digit of the
base. -/
def readDigits (base : Nat) : List Char → Nat → Nat
  | [], acc => acc
  | c :: cs, acc =>
    match digitValue c with
    | some d => if d < base then readDigits base cs (acc * base + d) else acc
    | none => acc

/-- Whether the character is a hexadecimal digit. -/
def isHexDigit (c : Char) : Bool :=
  match digitValue c with
  | some d => d < 16
  | none => false

/-- The magnitude `strtoll( text, 0, 0 )` reads after whitespace and sign: base
16 after `0x` or `0X` followed by a hexadecimal digit, base 8 after any other
`0`, base 10 otherwise; 0 when there is no digit. -/
def readMagnitude : List Char → Nat
  | '0' :: x :: d :: cs =>
    if (x = 'x' || x = 'X') && isHexDigit d then readDigits 16 (d :: cs) 0
    else readDigits 8 ('0' :: x :: d :: cs) 0
  | '0' :: cs => readDigits 8 ('0' :: cs) 0
  | cs => readDigits 10 cs 0

/-- The value `LLONG_MAX`. -/
def LLONG_MAX : Int := 2 ^ 63 - 1

/-- The value `LLONG_MIN`. -/
def LLONG_MIN : Int := -(2 ^ 63)

/-- Out-of-range results of `strtoll` are `LLONG_MIN` and `LLONG_MAX`. -/
def clampLL (v : Int) : Int :=
  if v < LLONG_MIN then LLONG_MIN else if LLONG_MAX < v then LLONG_MAX else v

/-- The call `std::strtoll( str, 0x00, 0 )`: leading whitespace, an optional
sign, the magnitude in the base the text announces, clamped to `long long`. -/
def strtoll (text : List Char) : Int :=
  match text.dropWhile isspace with
  | '-' :: cs => clampLL (-(readMagnitude cs : Int))
  | '+' :: cs => clampLL (readMagnitude cs)
  | cs => clampLL (readMagnitude cs)

/-- Conversion of an integer to the unsigned type of `w` bits. -/
def toUnsigned (w : Nat) (v : Int) : Nat :=
  (v % 2 ^ w).toNat

/-- Conversion of an unsigned value to the signed type of `w` bits (two's
complement). -/
def toSigned (w : Nat) (u : Nat) : Int :=
  if u % 2 ^ w < 2 ^ (w - 1) then ((u % 2 ^ w : Nat) : Int) else ((u % 2 ^ w : Nat) : Int) - 2 ^ w

/-- The extraction `iss >> rc` into a `bool` with `boolalpha` off, on the
characters left in the stream: whitespace is skipped, an optional sign and
decimal digits are read as a `long`; the extraction succeeds with `false` for
0 and `true` for 1 and fails for any other number or when no digit is found.
The result is the value on success and the characters not consumed. -/
def extractBool (stream : List Char) : Option Bool × List Char :=
  let body := stream.dropWhile isspace
  let negative := body.head? = some '-'
  let unsignedPart :=
    match body with
    | '-' :: cs => cs
    | '+' :: cs => cs
    | cs => cs
  let digits := unsignedPart.takeWhile Char.isDigit
  let rest := unsignedPart.dropWhile Char.isDigit
  if digits.isEmpty then (none, rest)
  else
    let magnitude := readDigits 10 digits 0
    if magnitude = 0 then (some false, rest)
    else if magnitude = 1 && !negative then (some true, rest)
    else (none, rest)

/-- The extraction `iss >> std::boolalpha >> rc` on the characters left in the
stream: whitespace is skipped and the text has to start with `true` or with
`false` (the names of the C locale). -/
def extractBoolAlpha (stream : List Char) : Option Bool × List Char :=
  match stream.dropWhile isspace with
  | 't' :: 'r' :: 'u' :: 'e' :: rest => (some true, rest)
  | 'f' :: 'a' :: 'l' :: 's' :: 'e' :: rest => (some false, rest)
  | rest => (none, rest)

/-- The function `utils::stob` of utils.cc. -/
def stob (value : String) : Except Error Bool :=
  match extractBool value.toList with
  | (some rc, _) => .ok rc
  | (none, rest) =>
    match extractBoolAlpha rest with
    | (some rc, _) => .ok rc
    | (none, _) => .error (.invalidArgument (value ++ "is not a valid boolean"))

/-! ## The default getters of interface::Field (dbi/field.hh) -/

/-- A concrete field class at one moment: for each virtual getter, what its
override yields (a value or an exception), or `none` when the class inherits
the default of `interface::Field`. An override's value is stored into a
variable of the getter's type, so it counts modulo the width of that type.
The string, `bool` and integer getters are embedded; the floating-point,
byte-array and timestamp getters are not. -/
structure Field where
  string : Option (Except Error String)
  bool : Option (Except Error Bool)
  int8 : Option (Except Error Int)
  uint8 : Option (Except Error Nat)
  int16 : Option (Except Error Int)
  uint16 : Option (Except Error Nat)
  int32 : Option (Except Error Int)
  uint32 : Option (Except Error Nat)
  int64 : Option (Except Error Int)
  uint64 : Option (Except Error Nat)

/-- A field class that overrides only the string getter. -/
def Field.ofString (str : Except Error String) : Field :=
  ⟨some str, none, none, none, none, none, none, none, none, none⟩

/-- The getter `get( std::string & )`; the default stores the empty string. -/
def Field.getString (f : Field) : Except Error String :=
  match f.string with
  | some r => r
  | none => .ok ""

/-- The getter `get( bool & )`; the default reads the string through `stob`. -/
def Field.getBool (f : Field) : Except Error Bool :=
  match f.bool with
  | some r => r
  | none => f.getString >>= stob

/-- The getter `get( uint64_t & )`; the default stores `strtoll` of the
string. -/
def Field.getUInt64 (f : Field) : Except Error Nat :=
  match f.uint64 with
  | some r => r.map (· % 2 ^ 64)
  | none => f.getString.map (fun str => toUnsigned 64 (strtoll str.toList))

/-- The getter `get( int64_t & )`; the default stores the `uint64_t`. -/
def Field.getInt64 (f : Field) : Except Error Int :=
  match f.int64 with
  | some r => r.map (fun v => toSigned 64 (toUnsigned 64 v))
  | none => f.getUInt64.map (toSigned 64)

/-- The getter `get( uint32_t & )`; the default stores the `uint64_t`. -/
def Field.getUInt32 (f : Field) : Except Error Nat :=
  match f.uint32 with
  | some r => r.map (· % 2 ^ 32)
  | none => f.getUInt64.map (· % 2 ^ 32)

/-- The getter `get( int32_t & )`; the default stores the `uint32_t`. -/
def Field.getInt32 (f : Field) : Except Error Int :=
  match f.int32 with
  | some r => r.map (fun v => toSigned 32 (toUnsigned 32 v))
  | none => f.getUInt32.map (toSigned 32)

/-- The getter `get( uint16_t & )`; the default stores the `uint32_t`. -/
def Field.getUInt16 (f : Field) : Except Error Nat :=
  match f.uint16 with
  | some r => r.map (· % 2 ^ 16)
  | none => f.getUInt32.map (· % 2 ^ 16)

/-- The getter `get( int16_t & )`; the default stores the `uint16_t`. -/
def Field.getInt16 (f : Field) : Except Error Int :=
  match f.int16 with
  | some r => r.map (fun v => toSigned 16 (toUnsigned 16 v))
  | none => f.getUInt16.map (toSigned 16)

/-- The getter `get( uint8_t & )`; the default stores the `uint16_t`. -/
def Field.getUInt8 (f : Field) : Except Error Nat :=
  match f.uint8 with
  | some r => r.map (· % 2 ^ 8)
  | none => f.getUInt16.map (· % 2 ^ 8)

/-- The getter `get( int8_t & )`; the default stores the `uint8_t`. -/
def Field.getInt8 (f : Field) : Except Error Int :=
  match f.int8 with
  | some r => r.map (fun v => toSigned 8 (toUnsigned 8 v))
  | none => f.getUInt8.map (toSigned 8)

/-- The decimal digits of a positive number, most significant first. -/
def decimalDigits (n : Nat) : List Char :=
  (Nat.digits 10 n).reverse.map (fun d => Char.ofNat ('0'.toNat + d))

/-- The decimal rendering of an integer: an optional `-`, then the digits
without leading zeros; `0` for zero. -/
def decimalRendering (v : Int) : String :=
  String.mk ((if v < 0 then ['-'] else []) ++
    (if v = 0 then ['0'] else decimalDigits v.natAbs))

/-! ## The SQLite backend (sqlite/sqlite.cc)

The SQLite library itself is outside the repository. A prepared statement is
seen through what the library reports: the names of its result columns, and,
for each execution, the rows `sqlite3_step` yields before it ends the run with
`SQLITE_DONE` or with an error. -/

/-- The fundamental datatypes `sqlite3_column_type` reports. -/
inductive SqlType where
  | SQLITE_INTEGER
  | SQLITE_FLOAT
  | SQLITE_TEXT
  | SQLITE_BLOB
  | SQLITE_NULL
  deriving DecidableEq, Repr

/-- The variant `SQLiteStatement::COLUMN`. A `double` is kept as the text of
its value. -/
inductive COLUMN where
  | int64 (v : Int)
  | double (text : String)
  | blob (bytes : List Nat)
  | null
  | string (s : String)
  deriving DecidableEq, Repr

/-- The datatype of a value as SQLite reports it. -/
def COLUMN.sqlType : COLUMN → SqlType
  | .int64 _ => .SQLITE_INTEGER
  | .double _ => .SQLITE_FLOAT
  | .blob _ => .SQLITE_BLOB
  | .null => .SQLITE_NULL
  | .string _ => .SQLITE_TEXT

/-- The function `toupper` of the C locale. -/
def toupper (c : Char) : Char :=
  if 'a' ≤ c ∧ c ≤ 'z' then Char.ofNat (c.toNat - 32) else c

/-- The call `std::transform( begin, end, begin, ::toupper )` on a string. -/
def upcase (s : String) : String :=
  String.mk (s.toList.map toupper)

/-- The members of `SQLiteStatement`, and `names`: the column names the
library reports for the prepared statement (`sqlite3_column_name`), as many as
`sqlite3_column_count`. -/
structure SQLiteStatement where
  names : List String
  columnNames : List String
  columnTypes : List SqlType
  fields : Nat
  affected : Nat
  results : List (List COLUMN)
  deriving DecidableEq, Repr

/-- The constructor of `SQLiteStatement` for a query that prepares. -/
def SQLiteStatement.new (names : List String) : SQLiteStatement :=
  { names := names, columnNames := [], columnTypes := [], fields := names.length,
    affected := 0, results := [] }

/-- The method `SQLiteStatement::reset`: `sqlite3_reset` and
`sqlite3_clear_bindings` on the handle; no member of the statement is
written. -/
def SQLiteStatement.reset (s : SQLiteStatement) : SQLiteStatement := s

/-- The value-binding overloads of `SQLiteStatement::setParam`, all ending in
one `sqlite3_bind_*` call with result code `rc`: the answer is
`rc == SQLITE_OK` and no member of the statement is written. -/
def SQLiteStatement.setParam (s : SQLiteStatement) (_parameter : Nat) (_value : Value)
    (rc : Nat) : Bool × SQLiteStatement :=
  (rc == 0, s)

/-- The call `vector.resize( n, v )`. -/
def resize {α : Type} (l : List α) (n : Nat) (v : α) : List α :=
  l.take n ++ List.replicate (n - l.length) v

/-- The loop over the fields of one `SQLITE_ROW` in `execute`, from field
`field` on, `todo` fields still to read: the value read from the row goes to
`columns`, a column type still `SQLITE_NULL` takes the type of the value, and
the upper-cased column name is appended to `columnNames`. A column the library
has no value for reads as NULL. -/
def SQLiteStatement.readRow (names : List String) (row : List COLUMN) :
    Nat → Nat → List COLUMN → List SqlType → List String →
      List COLUMN × List SqlType × List String
  | 0, _, columns, columnTypes, columnNames => (columns, columnTypes, columnNames)
  | todo + 1, field, columns, columnTypes, columnNames =>
    let value := row.getD field .null
    let name := names.getD field ""
    let columnTypes1 :=
      if columnTypes.getD field .SQLITE_NULL = .SQLITE_NULL then
        columnTypes.set field value.sqlType
      else columnTypes
    SQLiteStatement.readRow names row todo (field + 1) (columns ++ [value]) columnTypes1
      (columnNames ++ [upcase name])

/-- The `do ... while ( true )` loop of `execute` over the rows the run steps
through. -/
def SQLiteStatement.stepRows (s : SQLiteStatement) : List (List COLUMN) → SQLiteStatement
  | [] => s
  | row :: more =>
    let r := SQLiteStatement.readRow s.names row s.fields 0 [] s.columnTypes s.columnNames
    SQLiteStatement.stepRows
      { s with columnTypes := r.2.1, columnNames := r.2.2, results := s.results ++ [r.1] } more

/-- The method `SQLiteStatement::execute`: `rows` are the rows `sqlite3_step`
yields in this run, `final` is how the run ends: `SQLITE_DONE` with the count of
`sqlite3_changes`, or the message of an error code. -/
def SQLiteStatement.execute (s : SQLiteStatement) (rows : List (List COLUMN))
    (final : Except String Nat) : Except Error Unit × SQLiteStatement :=
  let s1 := SQLiteStatement.stepRows
    { s with columnTypes := resize s.columnTypes s.fields .SQLITE_NULL } rows
  match final with
  | .ok changes => (.ok (), { s1 with affected := changes })
  | .error msg => (.error (.dbException msg), s1)

/-- The classes derived from `SQLiteField`. -/
inductive SQLiteFieldClass where
  | SQLiteIntegerField
  | SQLiteFloatField
  | SQLiteByteAField
  | SQLiteNullField
  | SQLiteVarcharField
  deriving DecidableEq, Repr

/-- A `SQLiteField` object: its class and its member `field`. -/
structure SQLiteField where
  cls : SQLiteFieldClass
  field : Nat
  deriving DecidableEq, Repr

/-- The members of `SQLiteResultSet`; `stmt` is the statement as it stands
when the result set is used. -/
structure SQLiteResultSet where
  columns : List SQLiteField
  stmt : SQLiteStatement
  current : Nat
  deriving DecidableEq, Repr

/-- The `switch` of the constructor of `SQLiteResultSet`. -/
def SQLiteFieldClass.ofType : SqlType → SQLiteFieldClass
  | .SQLITE_INTEGER => .SQLiteIntegerField
  | .SQLITE_FLOAT => .SQLiteFloatField
  | .SQLITE_BLOB => .SQLiteByteAField
  | .SQLITE_NULL => .SQLiteNullField
  | .SQLITE_TEXT => .SQLiteVarcharField

/-- The loop of the constructor of `SQLiteResultSet`, from field `field` on,
`todo` fields still to come; `none` when `columnTypes[ field ]` is read past
the end. -/
def SQLiteResultSet.build (columnTypes : List SqlType) :
    Nat → Nat → List SQLiteField → Option (List SQLiteField)
  | 0, _, columns => some columns
  | todo + 1, field, columns =>
    match columnTypes[field]? with
    | none => none
    | some t =>
      SQLiteResultSet.build columnTypes todo (field + 1)
        (columns ++ [⟨SQLiteFieldClass.ofType t, field⟩])

/-- The method `SQLiteStatement::getResults`: a new `SQLiteResultSet` with
`current` set to `-1` as a `size_t`. -/
def SQLiteStatement.getResults (s : SQLiteStatement) : Option SQLiteResultSet :=
  (SQLiteResultSet.build s.columnTypes s.fields 0 []).map
    (fun columns => ⟨columns, s, 2 ^ 64 - 1⟩)

/-- The method `SQLiteResultSet::fieldName`: `stmt->columnNames[ field ]`,
`none` when that is read past the end. -/
def SQLiteResultSet.fieldName (r : SQLiteResultSet) (field : Nat) : Option String :=
  r.stmt.columnNames[field]?

/-- The method `SQLiteResultSet::fieldNames`. -/
def SQLiteResultSet.fieldNames (r : SQLiteResultSet) : List String :=
  r.stmt.columnNames

/-- The method `SQLiteResultSet::fields`. -/
def SQLiteResultSet.fields (r : SQLiteResultSet) : Nat :=
  r.stmt.fields

/-- The method `SQLiteResultSet::rows`. -/
def SQLiteResultSet.rows (r : SQLiteResultSet) : Nat :=
  r.stmt.results.length

/-- The method `SQLiteResultSet::row`. -/
def SQLiteResultSet.row (r : SQLiteResultSet) : Nat :=
  r.current

/-- The method `SQLiteResultSet::next`: `++current < rows( )` on a `size_t`. -/
def SQLiteResultSet.next (r : SQLiteResultSet) : Bool × SQLiteResultSet :=
  (decide ((r.current + 1) % 2 ^ 64 < r.rows), { r with current := (r.current + 1) % 2 ^ 64 })

/-- The method `SQLiteResultSet::get( size_t )`. -/
def SQLiteResultSet.get (r : SQLiteResultSet) (field : Nat) : Except Error SQLiteField :=
  if h : field ≥ r.columns.length then .error (.dbException "Field index is out of range")
  else .ok (r.columns.get ⟨field, Nat.lt_of_not_ge h⟩)

/-- The method `SQLiteField::name`. -/
def SQLiteField.name (f : SQLiteField) (r : SQLiteResultSet) : Option String :=
  r.fieldName f.field

/-- The method `SQLiteField::getRow` then `getCol`: the value of the field in
the current row of the result set, `none` when read past the end. -/
def SQLiteField.getCol (f : SQLiteField) (r : SQLiteResultSet) : Option COLUMN :=
  match r.stmt.results[r.current]? with
  | some row => row[f.field]?
  | none => none

/-! ## Further definitions: driver replies, name lookup, trimming, positions -/

/-- Whether a driver reply is a connection whose `connect()` succeeds, the
only reply `Pool::connect` returns from. -/
def DriverReply.connects : DriverReply → Bool
  | .cxn true _ _ => true
  | _ => false

/-- The world after `test()` was called once on each of the handles, in
order. -/
def World.testAll (w : World) (handles : List Nat) : World :=
  handles.foldl (fun w h => w.call h .test) w

/-- The handles `connections[ index ]` of a list of indices. -/
def Pool.handlesOf (p : Pool) (indices : List Nat) : List Nat :=
  indices.filterMap (fun i => p.connections[i]?)

/-- The position `std::find( begin, end, name ) - begin` in a vector of
strings, or `none` for `end`. -/
def findName (name : String) : List String → Option Nat
  | [] => none
  | y :: ys => if y = name then some 0 else (findName name ys).map (· + 1)

/-- The method `SQLiteResultSet::get( std::string )`. -/
def SQLiteResultSet.getByName (r : SQLiteResultSet) (name : String) :
    Except Error SQLiteField :=
  match findName (upcase name) r.stmt.columnNames with
  | none => .error (.dbException ("Unknown field named: " ++ upcase name))
  | some pos => r.get pos

/-- Equality of two strings ignoring the case of ASCII letters. -/
def equalIgnoringCase (a b : String) : Bool :=
  a.toList.map toupper = b.toList.map toupper

/-- The two `erase` calls of `Connection::createStatement`: the characters
before the first one that is no whitespace are erased, then the characters
after the last one that is no whitespace. -/
def trim (query : List Char) : List Char :=
  ((query.dropWhile isspace).reverse.dropWhile isspace).reverse

/-- The method `Connection::createStatement`: the backend handle whose
`createStatement` is called and the string it is called with. -/
def Connection.createStatement (c : Connection) (query : String) : Nat × String :=
  (c.connection, String.mk (trim query.toList))

/-- The parameter position of a binding call of the backend. -/
def StmtCall.parameter : StmtCall → Option Nat
  | .setParamNull parameter _ => some parameter
  | .setParam parameter _ => some parameter
  | _ => none

/-- Whether the wrapper call is an `operator<<`. -/
def StmtOp.isShift : StmtOp → Bool
  | .shiftNull _ => true
  | .shift _ _ => true
  | _ => false

/-- Whether the wrapper call is an `execute( )` or `executeUpdate( )` from
which the backend returns. -/
def StmtOp.isReturnedExecution : StmtOp → Bool
  | .execute none => true
  | .executeUpdate (.ok _) => true
  | _ => false

/-- The number of `operator<<` calls in a sequence of wrapper calls that come
after the last execution that returned, or after construction when there was
none. -/
def shiftsSinceExecution (ops : List StmtOp) : Nat :=
  (ops.reverse.takeWhile (fun op => !op.isReturnedExecution)).countP StmtOp.isShift

/-! ## Further definitions: SQLite null binding and cursor, the ResultSet
iterator, the PostgreSQL query helpers -/

/-- The method `SQLiteStatement::setParamNull`: it returns the result code
`rc` of `sqlite3_bind_null`, converted from `int` to `bool`; no member of the
statement is written. -/
def SQLiteStatement.setParamNull (s : SQLiteStatement) (_parameter : Nat)
    (_type : FieldType) (rc : Nat) : Bool × SQLiteStatement :=
  (rc != 0, s)

/-- The result set after `k` calls of `next( )`. -/
def SQLiteResultSet.afterNext : Nat → SQLiteResultSet → SQLiteResultSet
  | 0, r => r
  | k + 1, r => (SQLiteResultSet.afterNext k r).next.2

/-- A new result set over a statement of one column whose execution read the
two rows 1 and 2. -/
def demoResultSet : SQLiteResultSet :=
  ⟨[⟨.SQLiteIntegerField, 0⟩],
    ((SQLiteStatement.new ["V"]).execute [[.int64 1], [.int64 2]] (.ok 0)).2, 2 ^ 64 - 1⟩

/-- An `internal::ResultSet` (internal/resultset.hh) through what its iterator
uses: the pointer `results` (two wrappers are equal when these are), and
`fields( )` and `get( size_t )` of the backend result set behind it. A field is
a `shared_ptr< interface::Field >`, `none` being the null pointer; two
`internal::Field` are equal when their pointers are. -/
structure ResultSet where
  results : Nat
  fields : Nat
  get : Nat → Except Error (Option Nat)

/-- The members of `ResultSet::forward_iterator`; `rs` is the pointer
`results` of the result set the iterator refers to. -/
structure forward_iterator where
  rs : Nat
  column : Nat
  field : Option Nat
  deriving DecidableEq, Repr

/-- The constructor `forward_iterator( rs, _field )`. -/
def forward_iterator.new (rs : ResultSet) (_field : Nat) : Except Error forward_iterator :=
  if _field < rs.fields then
    (rs.get _field).map (fun f => ⟨rs.results, _field, f⟩)
  else .ok ⟨rs.results, _field, none⟩

/-- The method `forward_iterator::equals`. -/
def forward_iterator.equals (it rhs : forward_iterator) : Bool :=
  it.rs == rhs.rs && it.field == rhs.field

/-- The method `forward_iterator::next`, which `operator++` calls; `column` is
a `size_t`. -/
def forward_iterator.next (it : forward_iterator) (rs : ResultSet) :
    Except Error forward_iterator :=
  if (it.column + 1) % 2 ^ 64 < rs.fields then
    (rs.get ((it.column + 1) % 2 ^ 64)).map
      (fun f => { it with column := (it.column + 1) % 2 ^ 64, field := f })
  else .ok { it with column := (it.column + 1) % 2 ^ 64, field := none }

/-- The method `ResultSet::begin`. -/
def ResultSet.begin (rs : ResultSet) : Except Error forward_iterator :=
  forward_iterator.new rs 0

/-- The method `ResultSet::end`. -/
def ResultSet.end (rs : ResultSet) : Except Error forward_iterator :=
  forward_iterator.new rs rs.fields

/-- The loop `for ( ; it != last; ++it )` with the fields `*it` it visits, at
most `fuel` comparisons: `none` when the comparisons run out. -/
def ResultSet.visitFrom (rs : ResultSet) (last : forward_iterator) :
    Nat → forward_iterator → Option (Except Error (List (Option Nat)))
  | 0, _ => none
  | fuel + 1, it =>
    if it.equals last then some (.ok [])
    else
      match it.next rs with
      | .error e => some (.error e)
      | .ok it1 =>
        match ResultSet.visitFrom rs last fuel it1 with
        | none => none
        | some (.error e) => some (.error e)
        | some (.ok visited) => some (.ok (it.field :: visited))

/-- The range-for loop over a result set: from `begin( )` with `operator++`
until the iterator equals `end( )`. -/
def ResultSet.visit (rs : ResultSet) (fuel : Nat) :
    Option (Except Error (List (Option Nat))) :=
  match rs.begin, rs.end with
  | .ok first, .ok last => rs.visitFrom last fuel first
  | .error e, _ => some (.error e)
  | _, .error e => some (.error e)

/-- The wrapper over a SQLite result set: the pointer of field `i` is
`columns[ i ].get( )`, one object for each column. -/
def ResultSet.ofSQLite (results : Nat) (r : SQLiteResultSet) : ResultSet :=
  ⟨results, r.fields, fun i => (r.get i).map (fun f => some f.field)⟩

/-- The wrapper, with `results` pointer 7, over a new SQLite result set of the
two columns `id` and `v`. -/
def demoWrapper : ResultSet :=
  ResultSet.ofSQLite 7
    ⟨[⟨.SQLiteIntegerField, 0⟩, ⟨.SQLiteVarcharField, 1⟩],
      ((SQLiteStatement.new ["id", "v"]).execute [[.int64 1, .string "a"]] (.ok 0)).2,
      2 ^ 64 - 1⟩

/-- The wrapper, with `results` pointer 8, over a new SQLite result set without
columns. -/
def emptyWrapper : ResultSet :=
  ResultSet.ofSQLite 8 ⟨[], ((SQLiteStatement.new []).execute [] (.ok 0)).2, 2 ^ 64 - 1⟩

/-- Whether the character is a digit of the given base, as `readDigits`
tests it. -/
def isDigitOf (base : Nat) (c : Char) : Bool :=
  match digitValue c with
  | some d => d < base
  | none => false

/-- The function `tolower` of the C locale. -/
def tolower (c : Char) : Char :=
  if 'A' ≤ c ∧ c ≤ 'Z' then Char.ofNat (c.toNat + 32) else c

/-- The loop of `find_an` (psql.cc) over the rest of the haystack: `pos` is
`rc.second`, `nit` the position in the needle, `first` is `rc.first` with
`none` for `hend`. The result is the pair `rc`, or `none` when `*nit` is read
past the end of the needle. -/
def find_an_loop (needle : List Char) :
    List Char → Nat → Nat → Option Nat → Option (Option Nat × Nat)
  | [], pos, _, first => some (first, pos)
  | h :: rest, pos, nit, first =>
    match needle[nit]? with
    | none => none
    | some n =>
      if isspace n && isspace h then find_an_loop needle rest (pos + 1) nit first
      else
        match needle[if isspace n then nit + 1 else nit]? with
        | none => none
        | some n1 =>
          if tolower n1 ≠ tolower h then find_an_loop needle rest (pos + 1) 0 first
          else if (if isspace n then nit + 1 else nit) + 1 = needle.length then
            some (if (if isspace n then nit + 1 else nit) = 0 then some pos else first, pos)
          else
            find_an_loop needle rest (pos + 1) ((if isspace n then nit + 1 else nit) + 1)
              (if (if isspace n then nit + 1 else nit) = 0 then some pos else first)

/-- The function `find_an( haystack, needle )`. -/
def find_an (haystack needle : List Char) : Option (Option Nat × Nat) :=
  find_an_loop needle haystack 0 0 none

/-- The constant `FOR_UPDATE_PAT`. -/
def FOR_UPDATE_PAT : String := "for update"

/-- The enumeration `QueryType` of psql.cc. -/
inductive QueryType where
  | UNKNOWN | SELECT | DELETE | INSERT | UPDATE
  deriving DecidableEq, Repr

/-- The function `queryType`: the first six characters compared, ignoring
case, with the four command words. -/
def queryType (query : String) : QueryType :=
  if (query.toList.take 6).map tolower = "select".toList then .SELECT
  else if (query.toList.take 6).map tolower = "delete".toList then .DELETE
  else if (query.toList.take 6).map tolower = "insert".toList then .INSERT
  else if (query.toList.take 6).map tolower = "update".toList then .UPDATE
  else .UNKNOWN

/-- The local `forUpdate` of the constructor of `PSQLStatement`:
`find_an( query, FOR_UPDATE_PAT ).first != query.end( )`. -/
def forUpdate (query : String) : Bool :=
  match find_an query.toList FOR_UPDATE_PAT.toList with
  | some (first, _) => first.isSome
  | none => false

/-- The text the constructor of `PSQLStatement` stores in `query`, for the
statement identifier `id`: a SELECT becomes a cursor declaration. -/
def PSQLStatement.query (id query : String) : Except Error String :=
  if query.length = 0 then .error (.dbException "Query is empty")
  else if queryType query = .SELECT then
    .ok ("DECLARE " ++ id ++ " CURSOR WITH" ++ (if forUpdate query then "OUT" else "")
      ++ " HOLD FOR " ++ query)
  else .ok query

/-- The text `ss << bindNum` writes for an unsigned number. -/
def uintText (n : Nat) : List Char :=
  Nat.toDigits 10 n

/-- The loop of `normalizeParameters` (psql.cc), at most `fuel` rounds: the
query is rewritten in place, `pos` is the position looked at, `bindNum` a
`uint32_t`. The result is the final text and `bindNum`, `none` when the rounds
run out. -/
def normalizeLoop : Nat → List Char → Nat → Nat → Bool → Option (List Char × Nat)
  | 0, _, _, _, _ => none
  | fuel + 1, query, pos, bindNum, paramValid =>
    if pos < query.length then
      if paramValid && query.getD pos '\x00' = '?' then
        normalizeLoop fuel (query.take pos ++ ('$' :: uintText bindNum) ++ query.drop (pos + 1))
          (pos + 1 + 1) ((bindNum + 1) % 2 ^ 32) paramValid
      else if query.getD pos '\x00' = '\'' then
        normalizeLoop fuel query (pos + 1) bindNum (!paramValid)
      else normalizeLoop fuel query (pos + 1) bindNum paramValid
    else some (query, bindNum)

/-- The function `normalizeParameters( query, output )`: the returned
`int32_t`, which is `bindNum - 1`, and the output. -/
def normalizeParameters (fuel : Nat) (query : String) : Option (Int × String) :=
  (normalizeLoop fuel query.toList 0 1 true).map
    (fun r => (toSigned 32 ((r.2 + 2 ^ 32 - 1) % 2 ^ 32), String.mk r.1))

/-- The number of `?` characters of a text that lie outside single-quoted
sections; `outside` tells whether the text starts outside. -/
def placeholderCount : List Char → Bool → Nat
  | [], _ => 0
  | c :: cs, outside =>
    if outside && c = '?' then placeholderCount cs outside + 1
    else if c = '\'' then placeholderCount cs (!outside)
    else placeholderCount cs outside

/-- The text in which each `?` outside single-quoted sections is replaced by
`$` and its number in decimal, counting from `k`, every other character
kept. -/
def numbered : List Char → Nat → Bool → List Char
  | [], _, _ => []
  | c :: cs, k, outside =>
    if outside && c = '?' then ('$' :: uintText k) ++ numbered cs (k + 1) outside
    else if c = '\'' then c :: numbered cs k (!outside)
    else c :: numbered cs k outside

/-! ## Lemmas on the call log -/

theorem logCall_get_same (bs : List BackendCxn) (h : Nat) (c : CxnCall) :
    (logCall bs h c)[h]? = bs[h]?.map (fun b => { b with calls := b.calls ++ [c] }) := by
  induction bs generalizing h with
  | nil => rfl
  | cons b bs ih => cases h <;> simp [logCall, ih]

theorem lastAutoCommitOf_snoc_set (cs : List CxnCall) (b : Bool) :
    lastAutoCommitOf (cs ++ [.setAutoCommit b]) = some b := by
  induction cs with
  | nil => rfl
  | cons c cs ih => simp [lastAutoCommitOf, ih]

/-- A connection that answers `test()` with true exists in the heap. -/
theorem World.testOk_isSome (w : World) (h : Nat) (ht : w.testOk h = true) :
    ∃ b, w.heap[h]? = some b := by
  unfold World.testOk at ht
  cases hb : w.heap[h]? with
  | none => simp [hb] at ht
  | some b => exact ⟨b, rfl⟩

theorem World.lastAutoCommit_test_set (w : World) (h : Nat) (ac : Bool)
    (ht : w.testOk h = true) :
    ((w.call h .test).call h (.setAutoCommit ac)).lastAutoCommit h = some ac := by
  obtain ⟨b, hb⟩ := w.testOk_isSome h ht
  simp only [World.lastAutoCommit, World.call, logCall_get_same, hb, Option.map_some']
  exact lastAutoCommitOf_snoc_set _ _

/-! ## Lemmas on the pool -/

theorem findPos_lt (x : Nat) (l : List Nat) (pos : Nat) (h : findPos x l = some pos) :
    pos < l.length := by
  induction l generalizing pos with
  | nil => simp [findPos] at h
  | cons y ys ih =>
    unfold findPos at h
    by_cases hy : y = x
    · simp [hy] at h; subst h; simp
    · simp only [hy, if_false, Option.map_eq_some'] at h
      obtain ⟨q, hq, rfl⟩ := h
      have := ih q hq
      simp; omega

theorem findPos_of_mem (x : Nat) (l : List Nat) (h : x ∈ l) : ∃ pos, findPos x l = some pos := by
  induction l with
  | nil => simp at h
  | cons y ys ih =>
    unfold findPos
    by_cases hy : y = x
    · exact ⟨0, by simp [hy]⟩
    · have hx : x ∈ ys := by
        rcases List.mem_cons.mp h with h1 | h1
        · exact absurd h1.symm hy
        · exact h1
      obtain ⟨q, hq⟩ := ih hx
      exact ⟨q + 1, by simp [hy, hq]⟩

theorem Pool.addReconnect_autoCommit (p : Pool) (c : Nat) :
    (p.addReconnect c).autoCommit = p.autoCommit := by
  unfold Pool.addReconnect; split <;> rfl

theorem Pool.getLoop_autoCommit (q : List Nat) :
    ∀ (p : Pool) (w : World) (c : Connection) (p' : Pool) (w' : World),
      p.getLoop q w = (.returned c, p', w') →
      w'.lastAutoCommit c.connection = some p.autoCommit := by
  induction q with
  | nil => intro p w c p' w' h; simp [Pool.getLoop] at h
  | cons i rest ih =>
    intro p w c p' w' h
    unfold Pool.getLoop at h
    cases hc : p.connections[i]? with
    | none => simp [hc] at h
    | some ptr =>
      simp only [hc] at h
      by_cases ht : w.testOk ptr = true
      · simp only [ht, if_true, Prod.mk.injEq, GetResult.returned.injEq] at h
        obtain ⟨hc1, _, hw⟩ := h
        subst hc1; subst hw
        exact World.lastAutoCommit_test_set w ptr p.autoCommit ht
      · simp only [ht] at h
        have := ih _ _ _ _ _ h
        rw [this, Pool.addReconnect_autoCommit]

theorem Pool.connect_ok (p : Pool) (w : World) (h : Nat) (w1 : World)
    (hc : p.connect w = (.ok h, w1)) :
    (w1.call h .test).lastAutoCommit h = some p.autoCommit := by
  unfold Pool.connect at hc
  split at hc
  · simp at hc
  · simp at hc
  · simp at hc
  · rename_i cOk tOk rOk ds hd
    by_cases hcOk : cOk = true
    · simp only [hcOk, if_true, Prod.mk.injEq, Except.ok.injEq] at hc
      obtain ⟨hh, hw⟩ := hc
      subst hh; subst hw
      simp [World.lastAutoCommit, World.call, logCall_get_same, lastAutoCommitOf]
    · simp [hcOk] at hc

theorem Pool.getConnection_autoCommit (p : Pool) (w : World) (c : Connection) (p' : Pool)
    (w' : World) (h : p.getConnection w = (.returned c, p', w')) :
    w'.lastAutoCommit c.connection = some p.autoCommit := by
  unfold Pool.getConnection at h
  split at h
  · split at h
    · simp at h
    · rename_i cxn w1 hc
      split at h
      · simp only [Prod.mk.injEq, GetResult.returned.injEq] at h
        obtain ⟨h1, _, h3⟩ := h
        subst h1; subst h3
        exact Pool.connect_ok p w cxn w1 hc
      · simp at h
  · exact Pool.getLoop_autoCommit _ p w c p' w' h

/-- With a non-empty free-queue of valid indices over connections that all
pass `test()`, `getConnection` returns. -/
theorem Pool.getConnection_returns (p : Pool) (w : World) (hne : p.queue ≠ [])
    (hq : ∀ i ∈ p.queue, i < p.connections.length)
    (hh : ∀ h ∈ p.connections, w.testOk h = true) :
    ∃ c p' w', p.getConnection w = (.returned c, p', w') := by
  unfold Pool.getConnection
  cases hqq : p.queue with
  | nil => exact absurd hqq hne
  | cons i rest =>
    have hi : i < p.connections.length := hq i (by simp [hqq])
    have hget : p.connections[i]? = some p.connections[i] := List.getElem?_eq_getElem hi
    have ht : w.testOk p.connections[i] = true := hh _ (List.getElem_mem hi)
    simp only [Pool.getLoop, hget, ht, if_true]
    exact ⟨_, _, _, rfl⟩

/-! ## The pool: checked properties -/

/-- C1. The pool is built with two slots over healthy backend connections
(handles 0 and 1). A caller checks out a connection (slot 0), destroys the
wrapper, and two callers check out one connection each: both wrappers are
alive, both carry the release callback, and both are bound to backend
connection 1 of the pool's collection. The release pushed index
`size - position - 1 = 1` instead of the position 0 of the released handle. -/
theorem C1_released_slot_handed_out_twice :
    (freshSys 2 2 false).map (fun s =>
      ((s.run [.get, .release 0, .get, .get]).pool.connections,
       (s.run [.get, .release 0, .get, .get]).live,
       (s.run [.get, .release 0, .get, .get]).world.heap.map (·.testOk))) =
    some ([0, 1], [⟨1, true⟩, ⟨1, true⟩], [true, true]) := by
  decide

/-- C2. In the pool of two slots, after one checkout and the release of that
wrapper, a state reached from construction through `getConnection` and a
wrapper release, index 1 stands twice in the free-queue (and index 0 nowhere):
the count of index 1 across free-queue, reconnect-queue and checked-out slots
is 2. -/
theorem C2_index_twice_after_release :
    (freshSys 2 2 false).map (fun s =>
      ((s.run [.get, .release 0]).pool.queue,
       (s.run [.get, .release 0]).pool.reconnect,
       checkedOut (s.run [.get, .release 0]),
       occurrences (s.run [.get, .release 0]) 1,
       occurrences (s.run [.get, .release 0]) 0)) =
    some ([1, 1], [], [], 2, 0) := by
  decide

/-- C3. (1) A connection returned by `Pool::getConnection` has the pool's
autocommit default of that moment as its last `setAutoCommit` argument, on the
pooled and on the transient path. (2) After `pool.setAutoCommit( b )`, the
release of any wrapper `old` and a new `getConnection`, a returned connection
has `b` as its last autocommit setting, whatever the default was before.
(3) When `old` is a pooled wrapper of this pool, the free-queue holds valid
indices and the pool's connections pass `test()`, that `getConnection` does
return. (4) `pool.setAutoCommit` leaves the world (every backend connection and
its call log), both queues and the connection collection as they were. -/
theorem C3_autocommit_default_applied_at_checkout (p : Pool) (w : World) (b : Bool)
    (old : Connection) :
    (∀ c p' w', p.getConnection w = (.returned c, p', w') →
        w'.lastAutoCommit c.connection = some p.autoCommit) ∧
    (∀ c p' w',
        (old.destroy (p.setAutoCommit b w).1).getConnection (p.setAutoCommit b w).2
          = (.returned c, p', w') →
        w'.lastAutoCommit c.connection = some b) ∧
    (old.poolRelease = true → old.connection ∈ p.connections →
      (∀ i ∈ p.queue, i < p.connections.length) →
      (∀ h ∈ p.connections, w.testOk h = true) →
      ∃ c p' w',
        (old.destroy (p.setAutoCommit b w).1).getConnection (p.setAutoCommit b w).2
          = (.returned c, p', w') ∧
        w'.lastAutoCommit c.connection = some b) ∧
    ((p.setAutoCommit b w).2 = w ∧ (p.setAutoCommit b w).1.queue = p.queue ∧
      (p.setAutoCommit b w).1.reconnect = p.reconnect ∧
      (p.setAutoCommit b w).1.connections = p.connections) := by
  have hac : (old.destroy (p.setAutoCommit b w).1).autoCommit = b := by
    unfold Connection.destroy Pool.setAutoCommit Pool.addConnection
    split
    · split <;> rfl
    · rfl
  refine ⟨fun c p' w' h => Pool.getConnection_autoCommit p w c p' w' h, ?_, ?_, ?_⟩
  · intro c p' w' h
    rw [Pool.getConnection_autoCommit _ _ c p' w' h, hac]
  · intro hrel hmem hq hh
    obtain ⟨pos, hpos⟩ := findPos_of_mem _ _ hmem
    have hlt := findPos_lt _ _ _ hpos
    have hd : old.destroy (p.setAutoCommit b w).1 =
        { p with autoCommit := b, queue := p.queue ++ [p.connections.length - pos - 1] } := by
      simp [Connection.destroy, Pool.setAutoCommit, Pool.addConnection, hrel, hpos]
    have hret := Pool.getConnection_returns (old.destroy (p.setAutoCommit b w).1) w
      (by rw [hd]; simp)
      (by
        rw [hd]
        intro i hi
        simp only [List.mem_append, List.mem_singleton] at hi
        rcases hi with hi | hi
        · exact hq i hi
        · simp only; omega)
      (by rw [hd]; exact hh)
    obtain ⟨c, p', w', hr⟩ := hret
    refine ⟨c, p', w', hr, ?_⟩
    rw [Pool.getConnection_autoCommit _ _ c p' w' hr, hac]
  · exact ⟨rfl, rfl, rfl, rfl⟩

/-- C3 at the pool of two slots with slot 0 checked out under default `false`:
a checkout returns a connection set to `false`; after `setAutoCommit( true )`,
the release of the wrapper of slot 0 and a new checkout, a connection comes
back whose last autocommit setting is `true`. -/
theorem C3_autocommit_default_applied_at_checkout_witness :
    (∃ c p' w', demoPool.getConnection demoWorld = (.returned c, p', w') ∧
      w'.lastAutoCommit c.connection = some false) ∧
    (∃ c p' w',
      (Connection.destroy ⟨0, true⟩ (demoPool.setAutoCommit true demoWorld).1).getConnection
        (demoPool.setAutoCommit true demoWorld).2 = (.returned c, p', w') ∧
      w'.lastAutoCommit c.connection = some true) :=
  ⟨⟨_, _, _, rfl,
      (C3_autocommit_default_applied_at_checkout demoPool demoWorld true ⟨0, true⟩).1
        _ _ _ rfl⟩,
    (C3_autocommit_default_applied_at_checkout demoPool demoWorld true ⟨0, true⟩).2.2.1
      (by decide) (by decide) (by decide) (by decide)⟩

/-! ## The Statement wrapper: lemmas -/

theorem pendingExecution_snoc (log : List StmtCall) (c : StmtCall) :
    pendingExecution (log ++ [c]) = pendingAfter (pendingExecution log) c := by
  simp [pendingExecution, List.foldl_append]

/-- What one wrapper call appends to the backend log and does to the flag. -/
theorem Statement.step_calls (s : Statement) (op : StmtOp) :
    ∃ fwd, fwd ≠ StmtCall.reset ∧ fwd.isBind = op.isBind ∧
      fwd.isExecution = !op.isBind ∧
      (s.step op).calls = s.calls ++ (if op.isBind && s.reset then [.reset] else []) ++ [fwd] ∧
      (s.step op).reset = (if op.isBind then false else
        match fwd with
        | .execute true => true
        | .executeUpdate true => true
        | _ => s.reset) := by
  cases op with
  | setParamNull i t a => refine ⟨.setParamNull i t, by simp, rfl, rfl, ?_⟩; cases hr : s.reset <;>
      simp [Statement.step, Statement.setParamNull, Statement.send, Statement.checkReset,
        StmtOp.isBind, hr]
  | setParamValue i v a => refine ⟨.setParam i v, by simp, rfl, rfl, ?_⟩; cases hr : s.reset <;>
      simp [Statement.step, Statement.setParamValue, Statement.send, Statement.checkReset,
        StmtOp.isBind, hr]
  | setParamPtr i p a =>
    cases p with
    | null T =>
      refine ⟨.setParamNull i (FieldTypeDecoder.type T), by simp, rfl, rfl, ?_⟩
      cases hr : s.reset <;>
        simp [Statement.step, Statement.setParamPtr, Statement.setParamNull, Statement.send,
          Statement.checkReset, StmtOp.isBind, hr]
    | pointsTo v =>
      refine ⟨.setParam i v, by simp, rfl, rfl, ?_⟩
      cases hr : s.reset <;>
        simp [Statement.step, Statement.setParamPtr, Statement.setParamValue, Statement.send,
          Statement.checkReset, StmtOp.isBind, hr]
  | setParamCStr i t a =>
    cases t with
    | none =>
      refine ⟨.setParamNull i (FieldTypeDecoder.type .string), by simp, rfl, rfl, ?_⟩
      cases hr : s.reset <;>
        simp [Statement.step, Statement.setParamCStr, Statement.setParamNull, Statement.send,
          Statement.checkReset, StmtOp.isBind, hr]
    | some text =>
      refine ⟨.setParam i ⟨.string, text⟩, by simp, rfl, rfl, ?_⟩
      cases hr : s.reset <;>
        simp [Statement.step, Statement.setParamCStr, Statement.send, Statement.checkReset,
          StmtOp.isBind, hr]
  | shiftNull a =>
    refine ⟨.setParamNull s.nextParam (FieldTypeDecoder.type .nullptrT), by simp, rfl, rfl, ?_⟩
    cases hr : s.reset <;>
      simp [Statement.step, Statement.shiftNull, Statement.setParamNull, Statement.send,
        Statement.checkReset, StmtOp.isBind, hr]
  | shift o a =>
    cases o with
    | value v =>
      refine ⟨.setParam s.nextParam v, by simp, rfl, rfl, ?_⟩
      cases hr : s.reset <;>
        simp [Statement.step, Statement.shift, Statement.setParamValue, Statement.send,
          Statement.checkReset, StmtOp.isBind, hr]
    | ptr p =>
      cases p with
      | null T =>
        refine ⟨.setParamNull s.nextParam (FieldTypeDecoder.type T), by simp, rfl, rfl, ?_⟩
        cases hr : s.reset <;>
          simp [Statement.step, Statement.shift, Statement.setParamPtr, Statement.setParamNull,
            Statement.send, Statement.checkReset, StmtOp.isBind, hr]
      | pointsTo v =>
        refine ⟨.setParam s.nextParam v, by simp, rfl, rfl, ?_⟩
        cases hr : s.reset <;>
          simp [Statement.step, Statement.shift, Statement.setParamPtr, Statement.setParamValue,
            Statement.send, Statement.checkReset, StmtOp.isBind, hr]
    | cstr t =>
      cases t with
      | none =>
        refine ⟨.setParamNull s.nextParam (FieldTypeDecoder.type .string), by simp, rfl, rfl, ?_⟩
        cases hr : s.reset <;>
          simp [Statement.step, Statement.shift, Statement.setParamCStr, Statement.setParamNull,
            Statement.send, Statement.checkReset, StmtOp.isBind, hr]
      | some text =>
        refine ⟨.setParam s.nextParam ⟨.string, text⟩, by simp, rfl, rfl, ?_⟩
        cases hr : s.reset <;>
          simp [Statement.step, Statement.shift, Statement.setParamCStr,
            Statement.send, Statement.checkReset, StmtOp.isBind, hr]
  | execute r =>
    cases r with
    | none =>
      exact ⟨.execute true, by simp, rfl, rfl, by
        simp [Statement.step, Statement.execute, Statement.send, StmtOp.isBind]⟩
    | some e =>
      exact ⟨.execute false, by simp, rfl, rfl, by
        simp [Statement.step, Statement.execute, Statement.send, StmtOp.isBind]⟩
  | executeUpdate r =>
    cases r with
    | ok n =>
      exact ⟨.executeUpdate true, by simp, rfl, rfl, by
        simp [Statement.step, Statement.executeUpdate, Statement.send, StmtOp.isBind]⟩
    | error e =>
      exact ⟨.executeUpdate false, by simp, rfl, rfl, by
        simp [Statement.step, Statement.executeUpdate, Statement.send, StmtOp.isBind]⟩

/-- The flag `reset` of the wrapper tells whether an execution has returned
since the last backend `reset( )`: it holds at construction and every wrapper
call keeps it. -/
theorem Statement.flag_tracks_log (ops : List StmtOp) :
    ∀ s : Statement, s.reset = pendingExecution s.calls →
      (s.run ops).reset = pendingExecution (s.run ops).calls := by
  induction ops with
  | nil => intro s h; exact h
  | cons op ops ih =>
    intro s h
    apply ih (s.step op)
    obtain ⟨fwd, hne, hb, he, hcalls, hreset⟩ := s.step_calls op
    rw [hcalls, hreset, pendingExecution_snoc]
    cases hop : op.isBind
    · rw [hop] at hb
      simp only [Bool.false_and, Bool.false_eq_true, if_false, List.append_nil]
      cases fwd with
      | reset => exact absurd rfl hne
      | setParamNull i t => simp [StmtCall.isBind] at hb
      | setParam i v => simp [StmtCall.isBind] at hb
      | execute r => cases r <;> simp [h, pendingAfter]
      | executeUpdate r => cases r <;> simp [h, pendingAfter]
    · rw [hop] at hb he
      cases fwd with
      | reset => exact absurd rfl hne
      | setParamNull i t =>
        cases hr : s.reset <;> simp [pendingExecution_snoc, pendingAfter, ← h, hr]
      | setParam i v =>
        cases hr : s.reset <;> simp [pendingExecution_snoc, pendingAfter, ← h, hr]
      | execute r => simp [StmtCall.isBind] at hb
      | executeUpdate r => simp [StmtCall.isBind] at hb


/-! ## The backend log as a whole -/

theorem pendingExecution_take_succ (L : List StmtCall) (k : Nat) (c : StmtCall)
    (h : L[k]? = some c) :
    pendingExecution (L.take (k + 1)) = pendingAfter (pendingExecution (L.take k)) c := by
  rw [List.take_succ, h]
  exact pendingExecution_snoc _ _

theorem pendingExecution_take_of_none (L : List StmtCall) (k : Nat) (h : L[k]? = none) :
    pendingExecution (L.take (k + 1)) = pendingExecution (L.take k) := by
  rw [List.take_succ, h]
  simp

/-- After a returned execution with no `reset( )` behind it, an execution is
pending. -/
theorem pendingExecution_of_returned (L : List StmtCall) (e : Nat) (c : StmtCall)
    (he : L[e]? = some c) (hc : c.isReturned = true) :
    ∀ b, e < b → (∀ k, e < k → k < b → L[k]? ≠ some .reset) →
      pendingExecution (L.take b) = true := by
  intro b
  induction b with
  | zero => intro h; omega
  | succ b ih =>
    intro hlt hno
    by_cases hb : e = b
    · subst hb
      rw [pendingExecution_take_succ L e c he]
      cases c with
      | execute r => cases r <;> simp_all [StmtCall.isReturned, pendingAfter]
      | executeUpdate r => cases r <;> simp_all [StmtCall.isReturned, pendingAfter]
      | reset => simp [StmtCall.isReturned] at hc
      | setParamNull i t => simp [StmtCall.isReturned] at hc
      | setParam i v => simp [StmtCall.isReturned] at hc
    · have hprev := ih (by omega) (fun k h1 h2 => hno k h1 (by omega))
      cases hLb : L[b]? with
      | none => rw [pendingExecution_take_of_none L b hLb, hprev]
      | some d =>
        rw [pendingExecution_take_succ L b d hLb, hprev]
        have hd : d ≠ .reset := by
          intro h; subst h; exact hno b (by omega) (by omega) hLb
        cases d with
        | reset => exact absurd rfl hd
        | execute r => cases r <;> rfl
        | executeUpdate r => cases r <;> rfl
        | setParamNull i t => rfl
        | setParam i v => rfl

/-- A pending execution is a returned execution with no `reset( )` behind
it. -/
theorem returned_of_pendingExecution (L : List StmtCall) :
    ∀ r, pendingExecution (L.take r) = true →
      ∃ e, e < r ∧ (∃ c, L[e]? = some c ∧ c.isReturned = true) ∧
        ∀ k, e < k → k < r → L[k]? ≠ some .reset := by
  intro r
  induction r with
  | zero => intro h; simp [pendingExecution] at h
  | succ r ih =>
    intro h
    cases hLr : L[r]? with
    | none =>
      rw [pendingExecution_take_of_none L r hLr] at h
      obtain ⟨e, he, hc, hno⟩ := ih h
      refine ⟨e, by omega, hc, fun k h1 h2 => ?_⟩
      by_cases hk : k = r
      · subst hk; rw [hLr]; simp
      · exact hno k h1 (by omega)
    | some d =>
      rw [pendingExecution_take_succ L r d hLr] at h
      have keep : pendingExecution (L.take r) = true → d ≠ .reset →
          ∃ e, e < r + 1 ∧ (∃ c, L[e]? = some c ∧ c.isReturned = true) ∧
            ∀ k, e < k → k < r + 1 → L[k]? ≠ some .reset := by
        intro hp hd
        obtain ⟨e, he, hc, hno⟩ := ih hp
        refine ⟨e, by omega, hc, fun k h1 h2 => ?_⟩
        by_cases hk : k = r
        · subst hk; rw [hLr]; simpa using hd
        · exact hno k h1 (by omega)
      cases d with
      | reset => simp [pendingAfter] at h
      | execute b =>
        cases b with
        | true => exact ⟨r, by omega, ⟨_, hLr, rfl⟩, fun k h1 h2 => by omega⟩
        | false => exact keep h (by simp)
      | executeUpdate b =>
        cases b with
        | true => exact ⟨r, by omega, ⟨_, hLr, rfl⟩, fun k h1 h2 => by omega⟩
        | false => exact keep h (by simp)
      | setParamNull i t => exact keep h (by simp)
      | setParam i v => exact keep h (by simp)

theorem getElem?_snoc_lt {α : Type} (L : List α) (a : α) (k : Nat) (h : k < L.length) :
    (L ++ [a])[k]? = L[k]? := List.getElem?_append_left h

theorem getElem?_snoc_eq {α : Type} (L : List α) (a : α) : (L ++ [a])[L.length]? = some a := by
  simp

theorem getElem?_snoc_gt {α : Type} (L : List α) (a : α) (k : Nat) (h : L.length < k) :
    (L ++ [a])[k]? = none := by
  apply List.getElem?_eq_none
  simp; omega

theorem take_snoc_le {α : Type} (L : List α) (a : α) (k : Nat) (h : k ≤ L.length) :
    (L ++ [a]).take k = L.take k := List.take_append_of_le_length h

theorem LocalOK_nil : LocalOK [] := by
  intro k
  constructor
  · intro h; simp at h
  · intro c h; simp at h

/-- Appending a call that is neither `reset( )` nor a binding keeps `LocalOK`. -/
theorem LocalOK_snoc_execution (L : List StmtCall) (a : StmtCall) (hL : LocalOK L)
    (ha : a ≠ .reset) (hb : a.isBind = false) : LocalOK (L ++ [a]) := by
  intro k
  rcases Nat.lt_trichotomy k L.length with hk | hk | hk
  · obtain ⟨h1, h2⟩ := hL k
    rw [getElem?_snoc_lt L a k hk, take_snoc_le L a k (by omega)]
    constructor
    · intro hr
      obtain ⟨hp, c, hc, hcb⟩ := h1 hr
      have hlt : k + 1 < L.length := by
        by_contra hge
        rw [List.getElem?_eq_none (by omega)] at hc
        simp at hc
      exact ⟨hp, c, by rw [getElem?_snoc_lt L a (k + 1) hlt]; exact hc, hcb⟩
    · intro c hc hcb
      rcases h2 c hc hcb with ⟨hk1, hprev⟩ | hp
      · left
        exact ⟨hk1, by rw [getElem?_snoc_lt L a (k - 1) (by omega)]; exact hprev⟩
      · right; exact hp
  · subst hk
    rw [getElem?_snoc_eq]
    constructor
    · intro hr; exact absurd (Option.some.inj hr) ha
    · intro c hc hcb
      have : a = c := Option.some.inj hc
      subst this
      rw [hb] at hcb; exact absurd hcb (by simp)
  · rw [getElem?_snoc_gt L a k hk]
    constructor
    · intro hr; simp at hr
    · intro c hc; simp at hc

/-- Appending a binding where no execution is pending keeps `LocalOK`. -/
theorem LocalOK_snoc_bind (L : List StmtCall) (a : StmtCall) (hL : LocalOK L)
    (ha : a ≠ .reset) (hp : pendingExecution L = false) : LocalOK (L ++ [a]) := by
  intro k
  rcases Nat.lt_trichotomy k L.length with hk | hk | hk
  · obtain ⟨h1, h2⟩ := hL k
    rw [getElem?_snoc_lt L a k hk, take_snoc_le L a k (by omega)]
    constructor
    · intro hr
      obtain ⟨hp, c, hc, hcb⟩ := h1 hr
      have hlt : k + 1 < L.length := by
        by_contra hge
        rw [List.getElem?_eq_none (by omega)] at hc
        simp at hc
      exact ⟨hp, c, by rw [getElem?_snoc_lt L a (k + 1) hlt]; exact hc, hcb⟩
    · intro c hc hcb
      rcases h2 c hc hcb with ⟨hk1, hprev⟩ | hp
      · left
        exact ⟨hk1, by rw [getElem?_snoc_lt L a (k - 1) (by omega)]; exact hprev⟩
      · right; exact hp
  · subst hk
    rw [getElem?_snoc_eq]
    constructor
    · intro hr; exact absurd (Option.some.inj hr) ha
    · intro c _ _
      right
      rw [take_snoc_le L a L.length (le_refl _), List.take_length]
      exact hp
  · rw [getElem?_snoc_gt L a k hk]
    constructor
    · intro hr; simp at hr
    · intro c hc; simp at hc

/-- Appending `reset( )` and a binding where an execution is pending keeps
`LocalOK`. -/
theorem LocalOK_snoc_reset_bind (L : List StmtCall) (a : StmtCall) (hL : LocalOK L)
    (ha : a ≠ .reset) (hab : a.isBind = true) (hp : pendingExecution L = true) :
    LocalOK (L ++ [.reset] ++ [a]) := by
  intro k
  have hlen : (L ++ [StmtCall.reset]).length = L.length + 1 := by simp
  rcases Nat.lt_trichotomy k L.length with hk | hk | hk
  · obtain ⟨h1, h2⟩ := hL k
    rw [getElem?_snoc_lt _ a k (by omega), getElem?_snoc_lt L _ k hk,
      take_snoc_le _ a k (by omega), take_snoc_le L _ k (by omega)]
    constructor
    · intro hr
      obtain ⟨hp, c, hc, hcb⟩ := h1 hr
      have hlt : k + 1 < L.length := by
        by_contra hge
        rw [List.getElem?_eq_none (by omega)] at hc
        simp at hc
      refine ⟨hp, c, ?_, hcb⟩
      rw [getElem?_snoc_lt _ a (k + 1) (by omega), getElem?_snoc_lt L _ (k + 1) hlt]
      exact hc
    · intro c hc hcb
      rcases h2 c hc hcb with ⟨hk1, hprev⟩ | hp
      · left
        refine ⟨hk1, ?_⟩
        rw [getElem?_snoc_lt _ a (k - 1) (by omega), getElem?_snoc_lt L _ (k - 1) (by omega)]
        exact hprev
      · right; exact hp
  · subst hk
    rw [getElem?_snoc_lt _ a L.length (by omega), getElem?_snoc_eq]
    constructor
    · intro _
      refine ⟨?_, a, ?_, hab⟩
      · rw [take_snoc_le _ a L.length (by omega), take_snoc_le L _ L.length (le_refl _),
          List.take_length]
        exact hp
      · rw [← hlen]; exact getElem?_snoc_eq _ a
    · intro c hc hcb
      have : StmtCall.reset = c := Option.some.inj hc
      subst this
      simp [StmtCall.isBind] at hcb
  · rcases Nat.lt_trichotomy k (L.length + 1) with hk2 | hk2 | hk2
    · omega
    · subst hk2
      have hget : (L ++ [StmtCall.reset] ++ [a])[L.length + 1]? = some a := by
        rw [← hlen]; exact getElem?_snoc_eq _ a
      rw [hget]
      constructor
      · intro hr; exact absurd (Option.some.inj hr) ha
      · intro c _ _
        left
        refine ⟨by omega, ?_⟩
        show (L ++ [StmtCall.reset] ++ [a])[L.length + 1 - 1]? = some StmtCall.reset
        rw [Nat.add_sub_cancel, getElem?_snoc_lt _ a L.length (by omega), getElem?_snoc_eq]
    · rw [getElem?_snoc_gt _ a k (by omega)]
      constructor
      · intro hr; simp at hr
      · intro c hc; simp at hc

/-- Every backend log of a Statement wrapper started new satisfies `LocalOK`. -/
theorem LocalOK_run (ops : List StmtOp) :
    ∀ s : Statement, s.reset = pendingExecution s.calls → LocalOK s.calls →
      LocalOK (s.run ops).calls := by
  induction ops with
  | nil => intro s _ h; exact h
  | cons op ops ih =>
    intro s hflag hL
    have hflag' := Statement.flag_tracks_log [op] s hflag
    apply ih (s.step op) hflag'
    obtain ⟨fwd, hne, hb, he, hcalls, _⟩ := s.step_calls op
    rw [hcalls]
    cases hop : op.isBind
    · rw [hop] at hb
      simp only [Bool.false_and, Bool.false_eq_true, if_false, List.append_nil]
      exact LocalOK_snoc_execution _ _ hL hne hb
    · rw [hop] at hb
      cases hr : s.reset
      · simp only [Bool.true_and, Bool.false_eq_true, if_false, List.append_nil]
        exact LocalOK_snoc_bind _ _ hL hne (by rw [← hflag, hr])
      · simp only [Bool.true_and, if_true]
        exact LocalOK_snoc_reset_bind _ _ hL hne hb (by rw [← hflag, hr])

theorem LocalOK_backendLog (ops : List StmtOp) : LocalOK (backendLog ops) :=
  LocalOK_run ops Statement.new rfl LocalOK_nil

/-- In a log that satisfies `LocalOK`: between a returned execution and the
first binding after it there is exactly one `reset( )`, right before the
binding. -/
theorem LocalOK.reset_before_first_bind {L : List StmtCall} (hL : LocalOK L) (e b : Nat)
    (ce cb : StmtCall) (hlt : e < b) (he : L[e]? = some ce) (hce : ce.isReturned = true)
    (hb : L[b]? = some cb) (hcb : cb.isBind = true)
    (hmid : ∀ k, e < k → k < b → ∀ c, L[k]? = some c → c.isBind = false) :
    L[b - 1]? = some .reset ∧ ∀ k, e < k → k < b - 1 → L[k]? ≠ some .reset := by
  have step1 : ∀ k, e < k → k < b → L[k]? = some .reset → k + 1 = b := by
    intro k h1 h2 hk
    obtain ⟨_, c, hc, hcbind⟩ := (hL k).1 hk
    by_contra hne
    have := hmid (k + 1) (by omega) (by omega) c hc
    rw [this] at hcbind
    exact absurd hcbind (by simp)
  have hlast : L[b - 1]? = some .reset := by
    rcases (hL b).2 cb hb hcb with ⟨_, h⟩ | hp
    · exact h
    · by_cases hex : ∃ k, e < k ∧ k < b ∧ L[k]? = some .reset
      · obtain ⟨k, h1, h2, hk⟩ := hex
        have := step1 k h1 h2 hk
        have hk' : k = b - 1 := by omega
        rw [← hk']; exact hk
      · have hno : ∀ k, e < k → k < b → L[k]? ≠ some .reset := by
          intro k h1 h2 hk
          exact hex ⟨k, h1, h2, hk⟩
        have := pendingExecution_of_returned L e ce he hce b hlt hno
        rw [this] at hp
        exact absurd hp (by simp)
  refine ⟨hlast, fun k h1 h2 hk => ?_⟩
  have := step1 k h1 (by omega) hk
  omega

theorem StmtCall.kinds (c : StmtCall) :
    c = .reset ∨ c.isBind = true ∨ c.isExecution = true := by
  cases c <;> simp [StmtCall.isBind, StmtCall.isExecution]

/-- In a log that satisfies `LocalOK`: a `reset( )` is followed by a binding
and goes back to a returned execution with nothing but executions between. -/
theorem LocalOK.reset_follows_execution {L : List StmtCall} (hL : LocalOK L) (r : Nat)
    (hr : L[r]? = some .reset) :
    (∃ c, L[r + 1]? = some c ∧ c.isBind = true) ∧
    ∃ e, e < r ∧ (∃ c, L[e]? = some c ∧ c.isReturned = true) ∧
      ∀ k, e < k → k < r → ∃ c, L[k]? = some c ∧ c.isExecution = true := by
  obtain ⟨hp, hnext⟩ := (hL r).1 hr
  refine ⟨hnext, ?_⟩
  obtain ⟨e, he, ⟨ce, hce, hret⟩, hno⟩ := returned_of_pendingExecution L r hp
  refine ⟨e, he, ⟨ce, hce, hret⟩, ?_⟩
  have hrlen : r < L.length := by
    by_contra hge
    rw [List.getElem?_eq_none (by omega)] at hr
    simp at hr
  intro k
  induction k using Nat.strong_induction_on with
  | _ k ih =>
    intro h1 h2
    have hk : L[k]? = some L[k] := List.getElem?_eq_getElem (by omega)
    refine ⟨L[k], hk, ?_⟩
    rcases StmtCall.kinds L[k] with h | h | h
    · rw [h] at hk; exact absurd hk (hno k h1 h2)
    · exfalso
      have hmid : ∀ j, e < j → j < k → ∀ c, L[j]? = some c → c.isBind = false := by
        intro j hj1 hj2 c hc
        obtain ⟨c', hc', hexec⟩ := ih j hj2 hj1 (by omega)
        rw [hc] at hc'
        have : c = c' := Option.some.inj hc'
        subst this
        cases c <;> simp_all [StmtCall.isBind, StmtCall.isExecution]
      obtain ⟨hlast, _⟩ := hL.reset_before_first_bind e k ce L[k] h1 hce hret hk h hmid
      by_cases hek : k - 1 = e
      · rw [hek, hce] at hlast
        have : ce = .reset := Option.some.inj hlast
        rw [this] at hret
        simp [StmtCall.isReturned] at hret
      · exact hno (k - 1) (by omega) (by omega) hlast
    · exact h

/-! ## The Statement wrapper: checked properties -/

/-- C4. Let `L` be the log of backend calls after any sequence `ops` of binding
calls (`setParamNull`, the `setParam` overloads for values, typed pointers and
`const char *`, `operator<<`) and `execute( )` / `executeUpdate( )` calls on a
new Statement wrapper, an execution counting as one once the backend has
returned from it.
(1) The next call `op` hands the backend exactly one call `fwd` that is not
`reset( )`, a binding for a binding call and an execution for an executing
call, and invokes `reset( )` exactly when `op` is a binding call and in `L` an
execution has returned since the last `reset( )`; the `reset( )` then comes
once and before `fwd`. So no execution invokes it, and no binding on a
statement not executed since its last reset.
(2) For every returned execution at position `e` of `L` and the first binding
after it, at position `b`: `reset( )` stands right before that binding and
nowhere else between `e` and `b`.
(3) Every `reset( )` in `L` is directly followed by a binding and goes back to a
returned execution with only executions in between. -/
theorem C4_reset_only_in_first_bind_after_execution (ops : List StmtOp) (op : StmtOp) :
    (∃ fwd, fwd ≠ StmtCall.reset ∧ fwd.isBind = op.isBind ∧ fwd.isExecution = !op.isBind ∧
      backendLog (ops ++ [op]) =
        backendLog ops ++
          (if op.isBind && pendingExecution (backendLog ops) then [.reset] else []) ++ [fwd]) ∧
    (∀ e b ce cb, e < b →
      (backendLog ops)[e]? = some ce → ce.isReturned = true →
      (backendLog ops)[b]? = some cb → cb.isBind = true →
      (∀ k, e < k → k < b → ∀ c, (backendLog ops)[k]? = some c → c.isBind = false) →
      (backendLog ops)[b - 1]? = some .reset ∧
        ∀ k, e < k → k < b - 1 → (backendLog ops)[k]? ≠ some .reset) ∧
    (∀ r, (backendLog ops)[r]? = some .reset →
      (∃ c, (backendLog ops)[r + 1]? = some c ∧ c.isBind = true) ∧
      ∃ e, e < r ∧ (∃ c, (backendLog ops)[e]? = some c ∧ c.isReturned = true) ∧
        ∀ k, e < k → k < r → ∃ c, (backendLog ops)[k]? = some c ∧ c.isExecution = true) := by
  refine ⟨?_, ?_, ?_⟩
  · obtain ⟨fwd, hne, hb, he, hcalls, _⟩ := (Statement.new.run ops).step_calls op
    refine ⟨fwd, hne, hb, he, ?_⟩
    have hrun : backendLog (ops ++ [op]) = ((Statement.new.run ops).step op).calls := by
      simp [backendLog, Statement.run, List.foldl_append]
    rw [hrun, hcalls, Statement.flag_tracks_log ops Statement.new rfl]
    rfl
  · intro e b ce cb hlt he hce hb hcb hmid
    exact (LocalOK_backendLog ops).reset_before_first_bind e b ce cb hlt he hce hb hcb hmid
  · intro r hr
    exact (LocalOK_backendLog ops).reset_follows_execution r hr

/-- C4 on `execute( ); execute( ); setParam( 0, "x" ); setParam( 1, "y" );
executeUpdate( ); stmt << "z"`: the log is execute, execute, reset, bind, bind,
executeUpdate, reset, bind. For the execution at position 1 and the binding at
position 3, `reset( )` stands at position 2; the `reset( )` at position 6 is
followed by a binding and goes back to the execution at position 5. -/
theorem C4_reset_only_in_first_bind_after_execution_witness :
    backendLog [.execute none, .execute none, .setParamValue 0 ⟨.string, "x"⟩ true,
        .setParamValue 1 ⟨.string, "y"⟩ true, .executeUpdate (.ok 1),
        .shift (.value ⟨.string, "z"⟩) true]
      = [.execute true, .execute true, .reset, .setParam 0 ⟨.string, "x"⟩,
          .setParam 1 ⟨.string, "y"⟩, .executeUpdate true, .reset,
          .setParam 0 ⟨.string, "z"⟩] ∧
    (backendLog [.execute none, .execute none, .setParamValue 0 ⟨.string, "x"⟩ true,
        .setParamValue 1 ⟨.string, "y"⟩ true, .executeUpdate (.ok 1),
        .shift (.value ⟨.string, "z"⟩) true])[3 - 1]? = some .reset ∧
    (∃ c, (backendLog [.execute none, .execute none, .setParamValue 0 ⟨.string, "x"⟩ true,
        .setParamValue 1 ⟨.string, "y"⟩ true, .executeUpdate (.ok 1),
        .shift (.value ⟨.string, "z"⟩) true])[6 + 1]? = some c ∧ c.isBind = true) :=
  ⟨by decide,
   ((C4_reset_only_in_first_bind_after_execution
      [.execute none, .execute none, .setParamValue 0 ⟨.string, "x"⟩ true,
        .setParamValue 1 ⟨.string, "y"⟩ true, .executeUpdate (.ok 1),
        .shift (.value ⟨.string, "z"⟩) true] (.execute none)).2.1
      1 3 (.execute true) (.setParam 0 ⟨.string, "x"⟩) (by decide) (by decide) (by decide)
      (by decide) (by decide)
      (fun k h1 h2 c hc => by
        have hk : k = 2 := by omega
        subst hk
        have : c = .reset := by
          have h : some StmtCall.reset = some c := by rw [← hc]; decide
          exact (Option.some.inj h).symm
        subst this
        rfl)).1,
   ((C4_reset_only_in_first_bind_after_execution
      [.execute none, .execute none, .setParamValue 0 ⟨.string, "x"⟩ true,
        .setParamValue 1 ⟨.string, "y"⟩ true, .executeUpdate (.ok 1),
        .shift (.value ⟨.string, "z"⟩) true] (.execute none)).2.2
      6 (by decide)).1⟩

/-! ## The SQLite backend: checked properties -/

/-- C5. A SQLite statement with one result column is executed and the run steps
through one row holding 1; the statement is reset and rebound, as the wrapper
does on the first bind after an execution, and executed again, the second run
stepping through one row holding 2. The result set obtained then reports
`rows( ) = 2` and its first row holds the 1 of the first run: `execute` appends
to `results` and nothing empties it. -/
theorem C5_second_result_set_keeps_first_rows :
    (((((SQLiteStatement.new ["V"]).execute [[.int64 1]] (.ok 0)).2.reset.setParam 0
        ⟨.int64, "2"⟩ 0).2.execute [[.int64 2]] (.ok 0)).2.getResults).map
      (fun r => (r.rows, r.stmt.results, r.next.2.row,
        (⟨.SQLiteIntegerField, 0⟩ : SQLiteField).getCol r.next.2))
    = some (2, [[.int64 1], [.int64 2]], 0, some (.int64 1)) := by
  decide

/-- C10. A SQLite statement with result columns `id` and `v` is executed and
the run steps through no row. In its result set `fields( )` is 2, `get( 0 )`
and `get( 1 )` return fields and `get( 2 )` raises the DBException, as claimed;
but `name( )` of the field of column 0 reads `columnNames[ 0 ]` of an empty
vector: the names are appended while a row is read, so without a row there is
none. -/
theorem C10_name_of_field_without_rows :
    ∃ r, ((SQLiteStatement.new ["id", "v"]).execute [] (.ok 0)).2.getResults = some r ∧
      r.fields = 2 ∧ r.fieldNames = [] ∧
      r.get 0 = .ok ⟨.SQLiteNullField, 0⟩ ∧ r.get 1 = .ok ⟨.SQLiteNullField, 1⟩ ∧
      r.get 2 = .error (.dbException "Field index is out of range") ∧
      (⟨.SQLiteNullField, 0⟩ : SQLiteField).name r = none :=
  ⟨_, rfl, rfl, rfl, rfl, rfl, rfl, rfl⟩

/-! ## The default getters: lemmas -/

theorem digitValue_ofDigit (d : Nat) (hd : d < 10) :
    digitValue (Char.ofNat ('0'.toNat + d)) = some d := by
  interval_cases d <;> decide

theorem readDigits_map (ds : List Nat) (hds : ∀ d ∈ ds, d < 10) (acc : Nat) :
    readDigits 10 (ds.map (fun d => Char.ofNat ('0'.toNat + d))) acc =
      ds.foldl (fun a d => a * 10 + d) acc := by
  induction ds generalizing acc with
  | nil => rfl
  | cons d ds ih =>
    have hd : d < 10 := hds d (by simp)
    simp only [List.map_cons, readDigits, digitValue_ofDigit d hd, hd, if_true, List.foldl_cons]
    exact ih (fun x hx => hds x (by simp [hx])) _

theorem foldl_digits (n : Nat) :
    (Nat.digits 10 n).reverse.foldl (fun a d => a * 10 + d) 0 = n := by
  rw [List.foldl_reverse]
  have h := Nat.ofDigits_digits 10 n
  rw [Nat.ofDigits_eq_foldr] at h
  have hf : (fun (x y : Nat) => y * 10 + x) = (fun (x y : Nat) => x + 10 * y) := by
    funext x y; omega
  simpa [hf] using h

theorem readDigits_decimalDigits (n : Nat) : readDigits 10 (decimalDigits n) 0 = n := by
  unfold decimalDigits
  rw [readDigits_map _ (fun d hd => Nat.digits_lt_base (by norm_num) (List.mem_reverse.mp hd))]
  exact foldl_digits n

/-- The rendering of a positive number starts with a digit from 1 to 9. -/
theorem decimalDigits_head (n : Nat) (hn : 0 < n) :
    ∃ d cs, 1 ≤ d ∧ d < 10 ∧ decimalDigits n = Char.ofNat ('0'.toNat + d) :: cs := by
  have hne : Nat.digits 10 n ≠ [] := Nat.digits_ne_nil_iff_ne_zero.mpr (by omega)
  have hlast := Nat.getLast_digit_ne_zero 10 (m := n) (by omega)
  have hlt : (Nat.digits 10 n).getLast hne < 10 :=
    Nat.digits_lt_base (by norm_num) (List.getLast_mem hne)
  refine ⟨(Nat.digits 10 n).getLast hne, ((Nat.digits 10 n).dropLast.reverse.map
    (fun d => Char.ofNat ('0'.toNat + d))), by omega, hlt, ?_⟩
  unfold decimalDigits
  conv_lhs => rw [← List.dropLast_append_getLast hne]
  simp

theorem readMagnitude_decimalDigits (n : Nat) (hn : 0 < n) :
    readMagnitude (decimalDigits n) = n := by
  obtain ⟨d, cs, h1, h10, hd⟩ := decimalDigits_head n hn
  have key : readMagnitude (decimalDigits n) = readDigits 10 (decimalDigits n) 0 := by
    rw [hd]
    interval_cases d <;> rfl
  rw [key, readDigits_decimalDigits]

theorem strtoll_decimalDigits (n : Nat) (hn : 0 < n) :
    strtoll (decimalDigits n) = clampLL n ∧
      strtoll ('-' :: decimalDigits n) = clampLL (-(n : Int)) := by
  have hm := readMagnitude_decimalDigits n hn
  obtain ⟨d, cs, h1, h10, hd⟩ := decimalDigits_head n hn
  constructor
  · have key : strtoll (decimalDigits n) = clampLL (readMagnitude (decimalDigits n)) := by
      rw [hd]
      interval_cases d <;> rfl
    rw [key, hm]
  · have key : strtoll ('-' :: decimalDigits n) =
        clampLL (-(readMagnitude (decimalDigits n) : Int)) := rfl
    rw [key, hm]

/-- The text `strtoll` reads back from the decimal rendering of a `long long`
is the number itself. -/
theorem strtoll_decimalRendering (v : Int) (hlo : -(2 ^ 63) ≤ v) (hhi : v < 2 ^ 63) :
    strtoll (decimalRendering v).toList = v := by
  have hclamp : clampLL v = v := by
    unfold clampLL LLONG_MIN LLONG_MAX
    split
    · omega
    · split <;> omega
  unfold decimalRendering
  show strtoll ((if v < 0 then ['-'] else []) ++
    (if v = 0 then ['0'] else decimalDigits v.natAbs)) = v
  by_cases h0 : v = 0
  · subst h0; decide
  · by_cases hneg : v < 0
    · have hn : 0 < v.natAbs := by omega
      simp only [hneg, if_true, h0, if_false, List.singleton_append]
      rw [(strtoll_decimalDigits _ hn).2]
      have : -(v.natAbs : Int) = v := by omega
      rw [this, hclamp]
    · have hn : 0 < v.natAbs := by omega
      simp only [hneg, if_false, h0, List.nil_append]
      rw [(strtoll_decimalDigits _ hn).1]
      have : (v.natAbs : Int) = v := by omega
      rw [this, hclamp]

/-! ## The default getters: checked properties -/

/-- C6. For a field that overrides only the string getter, and the string being
the decimal rendering of `v` (optional `-`, no leading zeros): the default
`int8_t` getter returns `v` when `-2^7 <= v < 2^7`, the `int16_t` getter when
`-2^15 <= v < 2^15`, the `int32_t` getter when `-2^31 <= v < 2^31` and the
`int64_t` getter when `-2^63 <= v < 2^63`. -/
theorem C6_signed_getters_read_back_decimal (v : Int) :
    (-(2 ^ 7) ≤ v → v < 2 ^ 7 →
      (Field.ofString (.ok (decimalRendering v))).getInt8 = .ok v) ∧
    (-(2 ^ 15) ≤ v → v < 2 ^ 15 →
      (Field.ofString (.ok (decimalRendering v))).getInt16 = .ok v) ∧
    (-(2 ^ 31) ≤ v → v < 2 ^ 31 →
      (Field.ofString (.ok (decimalRendering v))).getInt32 = .ok v) ∧
    (-(2 ^ 63) ≤ v → v < 2 ^ 63 →
      (Field.ofString (.ok (decimalRendering v))).getInt64 = .ok v) := by
  refine ⟨?_, ?_, ?_, ?_⟩ <;> intro hlo hhi
  all_goals
    have hs := strtoll_decimalRendering v (by omega) (by omega)
    simp only [Field.getInt8, Field.getUInt8, Field.getInt16, Field.getUInt16, Field.getInt32,
      Field.getUInt32, Field.getInt64, Field.getUInt64, Field.getString, Field.ofString,
      Except.map, hs]
    congr 1
    simp only [toSigned, toUnsigned]
    norm_num
    split <;> omega

/-- C6 at `v = -128`, which lies in the range of all four widths: the string
is `-128` and every signed getter returns -128. -/
theorem C6_signed_getters_read_back_decimal_witness :
    decimalRendering (-128) = "-128" ∧
    (Field.ofString (.ok (decimalRendering (-128)))).getInt8 = .ok (-128) ∧
    (Field.ofString (.ok (decimalRendering (-128)))).getInt16 = .ok (-128) ∧
    (Field.ofString (.ok (decimalRendering (-128)))).getInt32 = .ok (-128) ∧
    (Field.ofString (.ok (decimalRendering (-128)))).getInt64 = .ok (-128) :=
  ⟨by norm_num [decimalRendering, decimalDigits]; decide,
   (C6_signed_getters_read_back_decimal (-128)).1 (by decide) (by decide),
   (C6_signed_getters_read_back_decimal (-128)).2.1 (by decide) (by decide),
   (C6_signed_getters_read_back_decimal (-128)).2.2.1 (by decide) (by decide),
   (C6_signed_getters_read_back_decimal (-128)).2.2.2 (by decide) (by decide)⟩

/-- C7. For `v = 2^63`, whose decimal rendering is `9223372036854775808`, the
default `uint64_t` getter of a field that overrides only the string getter
returns `2^63 - 1`: the text is read by `strtoll`, which stops at
`LLONG_MAX`. -/
theorem C7_uint64_getter_saturates_at_llong_max :
    decimalRendering (2 ^ 63) = "9223372036854775808" ∧
    (Field.ofString (.ok "9223372036854775808")).getUInt64 = .ok (2 ^ 63 - 1) := by
  constructor
  · norm_num [decimalRendering, decimalDigits]; decide
  · decide

/-- C8. (1) A field class that does not override a given integer getter gets
the value of the delegate's getter, whatever that getter is, converted to the
type: `int8_t` from `uint8_t`, `uint8_t` from `uint16_t`, `int16_t` from
`uint16_t`, `uint16_t` from `uint32_t`, `int32_t` from `uint32_t`, `uint32_t`
from `uint64_t`, `int64_t` from `uint64_t`; an unsigned conversion is the
remainder modulo `2^w`. (2) A signed conversion `toSigned w` yields the number
of the range `-2^(w-1) .. 2^(w-1) - 1` that is congruent to its argument modulo
`2^w`. (3) For a field whose `uint32_t` getter is overridden with value `u` and
whose narrower getters and `int32_t` getter are not, these return `u` modulo
`2^32`, `2^16`, `2^16`, `2^8`, `2^8`, signed where the getter is signed,
whatever the string getter (and the `bool`, `uint64_t`, `int64_t` getters)
would do, even raise. -/
theorem C8_default_getters_follow_the_chain (f : Field) (u : Nat)
    (str : Option (Except Error String)) (b : Option (Except Error Bool))
    (i64 : Option (Except Error Int)) (u64 : Option (Except Error Nat)) :
    (({ f with int8 := none }).getInt8 = ({ f with int8 := none }).getUInt8.map (toSigned 8) ∧
     ({ f with uint8 := none }).getUInt8 = ({ f with uint8 := none }).getUInt16.map (· % 2 ^ 8) ∧
     ({ f with int16 := none }).getInt16
        = ({ f with int16 := none }).getUInt16.map (toSigned 16) ∧
     ({ f with uint16 := none }).getUInt16
        = ({ f with uint16 := none }).getUInt32.map (· % 2 ^ 16) ∧
     ({ f with int32 := none }).getInt32
        = ({ f with int32 := none }).getUInt32.map (toSigned 32) ∧
     ({ f with uint32 := none }).getUInt32
        = ({ f with uint32 := none }).getUInt64.map (· % 2 ^ 32) ∧
     ({ f with int64 := none }).getInt64
        = ({ f with int64 := none }).getUInt64.map (toSigned 64)) ∧
    (∀ x : Nat,
      (-(2 ^ 7 : Int) ≤ toSigned 8 x ∧ toSigned 8 x < 2 ^ 7 ∧
        (toSigned 8 x - (x : Int)) % 2 ^ 8 = 0) ∧
      (-(2 ^ 15 : Int) ≤ toSigned 16 x ∧ toSigned 16 x < 2 ^ 15 ∧
        (toSigned 16 x - (x : Int)) % 2 ^ 16 = 0) ∧
      (-(2 ^ 31 : Int) ≤ toSigned 32 x ∧ toSigned 32 x < 2 ^ 31 ∧
        (toSigned 32 x - (x : Int)) % 2 ^ 32 = 0) ∧
      (-(2 ^ 63 : Int) ≤ toSigned 64 x ∧ toSigned 64 x < 2 ^ 63 ∧
        (toSigned 64 x - (x : Int)) % 2 ^ 64 = 0)) ∧
    ((Field.mk str b none none none none none (some (.ok u)) i64 u64).getUInt32
        = .ok (u % 2 ^ 32) ∧
     (Field.mk str b none none none none none (some (.ok u)) i64 u64).getInt32
        = .ok (toSigned 32 (u % 2 ^ 32)) ∧
     (Field.mk str b none none none none none (some (.ok u)) i64 u64).getUInt16
        = .ok (u % 2 ^ 16) ∧
     (Field.mk str b none none none none none (some (.ok u)) i64 u64).getInt16
        = .ok (toSigned 16 (u % 2 ^ 16)) ∧
     (Field.mk str b none none none none none (some (.ok u)) i64 u64).getUInt8
        = .ok (u % 2 ^ 8) ∧
     (Field.mk str b none none none none none (some (.ok u)) i64 u64).getInt8
        = .ok (toSigned 8 (u % 2 ^ 8))) := by
  refine ⟨⟨rfl, rfl, rfl, rfl, rfl, rfl, rfl⟩, ?_, ?_⟩
  · intro x
    refine ⟨?_, ?_, ?_, ?_⟩ <;>
      (simp only [toSigned]; norm_num; split <;> omega)
  · have h16 : u % 2 ^ 32 % 2 ^ 16 = u % 2 ^ 16 :=
      Nat.mod_mod_of_dvd u (by norm_num)
    have h8 : u % 2 ^ 16 % 2 ^ 8 = u % 2 ^ 8 :=
      Nat.mod_mod_of_dvd u (by norm_num)
    simp only [Field.getInt8, Field.getUInt8, Field.getInt16, Field.getUInt16, Field.getInt32,
      Field.getUInt32, Except.map, h16, h8, and_self]

/-- C9. For a field that overrides only the string getter, the default `bool`
getter returns `utils::stob` of the string the string getter yields (and
raises what the string getter raises); `stob` returns true for `1` and for
`true`, false for `0` and for `false`. -/
theorem C9_bool_getter_is_stob (str : Except Error String) :
    (Field.ofString str).getBool = str >>= stob ∧
    stob "1" = .ok true ∧ stob "true" = .ok true ∧
    stob "0" = .ok false ∧ stob "false" = .ok false := by
  refine ⟨rfl, ?_, ?_, ?_, ?_⟩ <;> decide

/-! ## The checkout loop over unhealthy slots -/

theorem logCall_length (bs : List BackendCxn) (h : Nat) (c : CxnCall) :
    (logCall bs h c).length = bs.length := by
  induction bs generalizing h with
  | nil => rfl
  | cons b bs ih => cases h <;> simp [logCall, ih]

theorem logCall_map_testOk (bs : List BackendCxn) (h : Nat) (c : CxnCall) :
    (logCall bs h c).map (·.testOk) = bs.map (·.testOk) := by
  induction bs generalizing h with
  | nil => rfl
  | cons b bs ih => cases h <;> simp [logCall, ih]

/-- A call on a backend connection changes no answer of `test()`. -/
theorem World.call_testOk (w : World) (h : Nat) (c : CxnCall) (k : Nat) :
    (w.call h c).testOk k = w.testOk k := by
  have hm := congrArg (fun l => l[k]?) (logCall_map_testOk w.heap h c)
  simp only [List.getElem?_map] at hm
  unfold World.testOk World.call
  simp only
  cases h1 : (logCall w.heap h c)[k]? <;> cases h2 : w.heap[k]? <;>
    simp_all

theorem Pool.addReconnect_of_getElem (p : Pool) (i ptr : Nat)
    (h : p.connections[i]? = some ptr) :
    ∃ idx, p.addReconnect ptr = { p with reconnect := p.reconnect ++ [idx] } := by
  obtain ⟨pos, hpos⟩ := findPos_of_mem ptr p.connections (List.getElem?_mem h)
  exact ⟨p.connections.length - pos - 1, by simp [Pool.addReconnect, hpos]⟩

/-- The loop of `getConnection` over a free-queue whose slots all fail
`test()`: every slot is tested once, one index per slot goes to the
reconnect-queue, and the loop is left polling the empty free-queue. -/
theorem Pool.getLoop_all_unhealthy (q : List Nat) :
    ∀ (p : Pool) (w : World),
      (∀ i ∈ q, ∃ ptr, p.connections[i]? = some ptr ∧ w.testOk ptr = false) →
      ∃ added : List Nat, added.length = q.length ∧
        p.getLoop q w =
          (.spins, ⟨p.connections, [], p.reconnect ++ added, p.autoCommit⟩,
            w.testAll (p.handlesOf q)) := by
  induction q with
  | nil =>
    intro p w _
    exact ⟨[], rfl, by simp [Pool.getLoop, World.testAll, Pool.handlesOf]⟩
  | cons i rest ih =>
    intro p w h
    obtain ⟨ptr, hptr, htest⟩ := h i (by simp)
    obtain ⟨idx, hidx⟩ := p.addReconnect_of_getElem i ptr hptr
    have hrest : ∀ j ∈ rest, ∃ q', (p.addReconnect ptr).connections[j]? = some q' ∧
        (w.call ptr .test).testOk q' = false := by
      intro j hj
      obtain ⟨q', hq', ht'⟩ := h j (by simp [hj])
      exact ⟨q', by rw [hidx]; exact hq', by rw [World.call_testOk]; exact ht'⟩
    obtain ⟨added, hlen, hloop⟩ := ih (p.addReconnect ptr) (w.call ptr .test) hrest
    refine ⟨idx :: added, by simp [hlen], ?_⟩
    unfold Pool.getLoop
    simp only [hptr, htest, Bool.false_eq_true, if_false]
    rw [hloop, hidx]
    simp [World.testAll, Pool.handlesOf, hptr]

theorem World.testAll_driver (handles : List Nat) :
    ∀ w : World, (w.testAll handles).driver = w.driver ∧
      (w.testAll handles).heap.length = w.heap.length := by
  induction handles with
  | nil => intro w; exact ⟨rfl, rfl⟩
  | cons h hs ih =>
    intro w
    have := ih (w.call h .test)
    simp only [World.testAll, List.foldl_cons] at this ⊢
    exact ⟨this.1, by rw [this.2]; exact logCall_length _ _ _⟩

/-- C14, the claim as stated fails. A pool of one slot whose connection has
stopped answering `test()`, with a driver that would hand out a healthy
connection: `getConnection` tests slot 0, pushes it to the reconnect-queue and
then polls the empty free-queue. It neither returns nor raises, and no
connection is created: the heap still holds one connection and the driver's
reply is unused. -/
theorem C14_call_polls_empty_queue :
    (freshSys 1 2 false).map (fun s =>
      (s.step (.health 0 false false)).pool.getConnection
        (s.step (.health 0 false false)).world) =
    some (.spins, ⟨[0], [], [0], false⟩,
      ⟨[⟨true, false, false, [.setAutoCommit false, .connect, .test]⟩],
        [.cxn true true true]⟩) := by
  decide

/-- C14, amended. When `getConnection` is called with a non-empty free-queue
of valid indices whose slots all fail `test()`: every queued slot is popped
and tested once, one index per slot is appended to the reconnect-queue, the
connection collection and the driver are untouched and no connection is
created; the call then neither returns nor raises but polls the empty
free-queue, so it goes on only when another thread pushes an index. -/
theorem C14_unhealthy_queue_is_drained_then_polled (p : Pool) (w : World)
    (hne : p.queue ≠ [])
    (hq : ∀ i ∈ p.queue, ∃ ptr, p.connections[i]? = some ptr ∧ w.testOk ptr = false) :
    ∃ added : List Nat, added.length = p.queue.length ∧
      p.getConnection w =
        (.spins, ⟨p.connections, [], p.reconnect ++ added, p.autoCommit⟩,
          w.testAll (p.handlesOf p.queue)) ∧
      (w.testAll (p.handlesOf p.queue)).driver = w.driver ∧
      (w.testAll (p.handlesOf p.queue)).heap.length = w.heap.length := by
  obtain ⟨added, hlen, hloop⟩ := Pool.getLoop_all_unhealthy p.queue p w hq
  refine ⟨added, hlen, ?_, (World.testAll_driver _ w).1, (World.testAll_driver _ w).2⟩
  unfold Pool.getConnection
  cases hqq : p.queue with
  | nil => exact absurd hqq hne
  | cons i rest =>
    simp only
    rw [hqq] at hloop
    exact hloop

/-- C14 amended, at a pool of two slots whose two connections fail `test()`:
the call ends polling, both slots tested once, two indices in the
reconnect-queue, the driver's healthy reply unused. -/
theorem C14_unhealthy_queue_is_drained_then_polled_witness :
    ∃ added : List Nat, added.length = 2 ∧
      Pool.getConnection ⟨[0, 1], [0, 1], [], false⟩
          ⟨[⟨true, false, false, []⟩, ⟨true, false, false, []⟩],
            [.cxn true true true]⟩ =
        (.spins, ⟨[0, 1], [], [] ++ added, false⟩,
          World.testAll ⟨[⟨true, false, false, []⟩, ⟨true, false, false, []⟩],
            [.cxn true true true]⟩ (Pool.handlesOf ⟨[0, 1], [0, 1], [], false⟩ [0, 1])) ∧
      (World.testAll ⟨[⟨true, false, false, []⟩, ⟨true, false, false, []⟩],
            [.cxn true true true]⟩ (Pool.handlesOf ⟨[0, 1], [0, 1], [], false⟩ [0, 1])).driver
        = [.cxn true true true] ∧
      (World.testAll ⟨[⟨true, false, false, []⟩, ⟨true, false, false, []⟩],
            [.cxn true true true]⟩
          (Pool.handlesOf ⟨[0, 1], [0, 1], [], false⟩ [0, 1])).heap.length = 2 :=
  C14_unhealthy_queue_is_drained_then_polled ⟨[0, 1], [0, 1], [], false⟩
    ⟨[⟨true, false, false, []⟩, ⟨true, false, false, []⟩], [.cxn true true true]⟩
    (by decide) (by decide)

/-! ## Name lookup, reconnect step, errors and release: checked properties -/

/-- C11. A SQLite statement with result columns `id` and `v` is executed and
the run steps through no row. The statement has a column named `id`, and
`get( 0 )` returns its field, but `get( "id" )`, `get( "ID" )` and `get( "Id" )`
all raise the DBException "Unknown field named: ID": the lookup searches
`columnNames`, which is filled while rows are read and is empty here. -/
theorem C11_name_lookup_without_rows :
    ∃ r, ((SQLiteStatement.new ["id", "v"]).execute [] (.ok 0)).2.getResults = some r ∧
      r.fields = 2 ∧ equalIgnoringCase "id" "ID" = true ∧
      r.get 0 = .ok ⟨.SQLiteNullField, 0⟩ ∧
      r.getByName "id" = .error (.dbException "Unknown field named: ID") ∧
      r.getByName "ID" = .error (.dbException "Unknown field named: ID") ∧
      r.getByName "Id" = .error (.dbException "Unknown field named: ID") :=
  ⟨_, rfl, rfl, by decide, rfl, by decide, by decide, by decide⟩

/-- C15. In a pool of two slots the connection of slot 0 stops answering
`test()`; a checkout then hands out slot 1 and leaves index 1 in the
reconnect-queue. The worker's reconnect step pops `j = 1`, calls `reconnect()`
on `connections[ 1 ]` and on no other connection, `reconnect()` returns true,
and the step appends index 0 to the free-queue, not `j`: `addConnection` pushes
`size - position - 1`. -/
theorem C15_reconnect_step_requeues_other_index :
    (freshSys 2 2 false).map (fun s =>
      ((s.run [.health 0 false true, .get]).pool.reconnect,
       (s.run [.health 0 false true, .get]).pool.queue,
       (s.run [.health 0 false true, .get, .reconnectStep]).pool.reconnect,
       (s.run [.health 0 false true, .get, .reconnectStep]).pool.queue,
       (s.run [.health 0 false true, .get, .reconnectStep]).world.heap.map
         (fun b => b.calls.count .reconnect))) =
    some ([1], [], [], [0], [0, 1]) := by
  decide

/-- C17. With an empty free-queue, `getConnection` raises a
`std::runtime_error`, which is no DBException, when no driver is found, when
the driver returns no connection and when `connect()` of the new connection
returns false; it raises a DBException only when the liveness test of the new
connection fails. -/
theorem C17_creation_failure_is_runtime_error (connections reconnect : List Nat)
    (autoCommit t r : Bool) (heap : List BackendCxn) (ds : List DriverReply) :
    (Pool.getConnection ⟨connections, [], reconnect, autoCommit⟩ ⟨heap, .null :: ds⟩).1
      = .threw (.runtimeError "Connection create failed") ∧
    (Pool.getConnection ⟨connections, [], reconnect, autoCommit⟩
        ⟨heap, .cxn false t r :: ds⟩).1
      = .threw (.runtimeError "Unable to connect") ∧
    (Pool.getConnection ⟨connections, [], reconnect, autoCommit⟩ ⟨heap, .notFound :: ds⟩).1
      = .threw (.runtimeError "Supporting database type not found") := by
  refine ⟨rfl, ?_, rfl⟩
  simp [Pool.getConnection, Pool.connect]

/-- C18. In a pool of two slots the wrapper bound to slot 0 (handle 0, with
release callback) is destroyed: the callback `addConnection` runs once with
handle 0 and appends index 1 to the free-queue, not index 0; the world, and
with it every backend connection, is not touched. A wrapper without release
callback leaves the pool as it is. -/
theorem C18_release_appends_reversed_index :
    findPos 0 demoPool.connections = some 0 ∧
    (Connection.destroy ⟨0, true⟩ demoPool).queue = demoPool.queue ++ [1] ∧
    (Connection.destroy ⟨0, true⟩ demoPool).reconnect = demoPool.reconnect ∧
    (Connection.destroy ⟨0, true⟩ demoPool).connections = demoPool.connections ∧
    Connection.destroy ⟨0, false⟩ demoPool = demoPool := by
  decide

/-! ## Construction of the pool -/

/-- A reply that connects makes `Pool::connect` return the next handle. -/
theorem Pool.connect_of_connects (p : Pool) (w : World) (d : DriverReply)
    (ds : List DriverReply) (hw : w.driver = d :: ds) (hd : d.connects = true) :
    ∃ w1, p.connect w = (.ok w.heap.length, w1) ∧ w1.driver = ds ∧
      w1.heap.length = w.heap.length + 1 := by
  cases d with
  | notFound => simp [DriverReply.connects] at hd
  | null => simp [DriverReply.connects] at hd
  | cxn cOk tOk rOk =>
    cases cOk with
    | false => simp [DriverReply.connects] at hd
    | true =>
      unfold Pool.connect
      rw [hw]
      exact ⟨_, rfl, rfl, by simp [World.call, logCall_length]⟩

/-- A missing reply or a reply that does not connect makes `Pool::connect`
raise. -/
theorem Pool.connect_of_not_connects (p : Pool) (w : World)
    (h : ∀ d ds, w.driver = d :: ds → d.connects = false) :
    ∃ e w1, p.connect w = (.error e, w1) := by
  unfold Pool.connect
  cases hw : w.driver with
  | nil => exact ⟨_, _, rfl⟩
  | cons d ds =>
    have hd := h d ds hw
    cases d with
    | notFound => exact ⟨_, _, rfl⟩
    | null => exact ⟨_, _, rfl⟩
    | cxn cOk tOk rOk =>
      cases cOk with
      | true => simp [DriverReply.connects] at hd
      | false => exact ⟨_, _, rfl⟩

/-- The construction loop over `n` replies that all connect. -/
theorem Pool.fill_ok (n : Nat) :
    ∀ (p : Pool) (w : World), n ≤ w.driver.length →
      (∀ d ∈ w.driver.take n, d.connects = true) →
      ∃ w', Pool.fill n p w =
          (.ok ⟨p.connections ++ List.range' w.heap.length n,
            p.queue ++ List.range' p.connections.length n, p.reconnect, p.autoCommit⟩, w') ∧
        w'.driver = w.driver.drop n ∧ w'.heap.length = w.heap.length + n := by
  induction n with
  | zero => intro p w _ _; exact ⟨w, by simp [Pool.fill], rfl, rfl⟩
  | succ n ih =>
    intro p w hlen hall
    cases hw : w.driver with
    | nil => rw [hw] at hlen; simp at hlen
    | cons d ds =>
      rw [hw] at hlen hall
      have hd : d.connects = true := hall d (by simp)
      obtain ⟨w1, hc, hdrv, hheap⟩ := p.connect_of_connects w d ds hw hd
      have hlen1 : n ≤ w1.driver.length := by rw [hdrv]; simpa using hlen
      have hall1 : ∀ d' ∈ w1.driver.take n, d'.connects = true := by
        intro d' hd'
        rw [hdrv] at hd'
        exact hall d' (by simp [hd'])
      obtain ⟨w', hfill, hdrv', hheap'⟩ :=
        ih ⟨p.connections ++ [w.heap.length],
          p.queue ++ [(p.connections ++ [w.heap.length]).length - 1], p.reconnect,
          p.autoCommit⟩ w1 hlen1 hall1
      refine ⟨w', ?_, by rw [hdrv', hdrv]; simp, by rw [hheap', hheap]; omega⟩
      simp only [Pool.fill, hc]
      rw [hfill, hheap]
      simp [List.range'_succ, Nat.add_comm]

/-- The construction loop raises as soon as a reply is missing or does not
connect. -/
theorem Pool.fill_error (n : Nat) :
    ∀ (p : Pool) (w : World),
      ¬(n ≤ w.driver.length ∧ ∀ d ∈ w.driver.take n, d.connects = true) →
      ∃ e w', Pool.fill n p w = (.error e, w') := by
  induction n with
  | zero => intro p w h; exact absurd ⟨Nat.zero_le _, by simp⟩ h
  | succ n ih =>
    intro p w h
    by_cases hhead : ∃ d ds, w.driver = d :: ds ∧ d.connects = true
    · obtain ⟨d, ds, hw, hd⟩ := hhead
      obtain ⟨w1, hc, hdrv, _⟩ := p.connect_of_connects w d ds hw hd
      have h1 : ¬(n ≤ w1.driver.length ∧ ∀ d' ∈ w1.driver.take n, d'.connects = true) := by
        rintro ⟨hl, ha⟩
        apply h
        rw [hw]
        rw [hdrv] at hl ha
        refine ⟨by simpa using hl, ?_⟩
        intro d' hd'
        simp only [List.take_succ_cons, List.mem_cons] at hd'
        rcases hd' with rfl | hd'
        · exact hd
        · exact ha d' hd'
      obtain ⟨e, w', hf⟩ := ih _ w1 h1
      exact ⟨e, w', by simp only [Pool.fill, hc]; exact hf⟩
    · have hno : ∀ d ds, w.driver = d :: ds → d.connects = false := by
        intro d ds hw
        cases hd : d.connects
        · rfl
        · exact absurd ⟨d, ds, hw, hd⟩ hhead
      obtain ⟨e, w1, hc⟩ := p.connect_of_not_connects w hno
      exact ⟨e, w1, by simp only [Pool.fill, hc]⟩

/-- C16. Let `n = max( s, 1 )` for the requested size `s`. When the driver's
next `n` replies are connections whose `connect()` succeeds, the constructor
succeeds: it creates exactly `n` backend connections (the heap grows by `n`
and the pool holds their `n` handles, in creation order), the free-queue holds
`0, 1, ..., n-1` in that order and the reconnect-queue is empty. When one of
these replies is missing or fails (no driver, no connection, `connect()`
false), the constructor raises and there is no pool. -/
theorem C16_construction_all_or_nothing (s : Nat) (autoCommit : Bool) (w : World) :
    ((max s 1 ≤ w.driver.length ∧ ∀ d ∈ w.driver.take (max s 1), d.connects = true) →
      ∃ p w', Pool.create s autoCommit w = (.ok p, w') ∧
        p.connections = List.range' w.heap.length (max s 1) ∧
        p.connections.length = max s 1 ∧
        w'.heap.length = w.heap.length + max s 1 ∧
        p.queue = List.range (max s 1) ∧ p.reconnect = [] ∧ p.autoCommit = autoCommit) ∧
    (¬(max s 1 ≤ w.driver.length ∧ ∀ d ∈ w.driver.take (max s 1), d.connects = true) →
      ∃ e w', Pool.create s autoCommit w = (.error e, w')) := by
  constructor
  · rintro ⟨hlen, hall⟩
    obtain ⟨w', hfill, _, hheap⟩ :=
      Pool.fill_ok (max s 1) ⟨[], [], [], autoCommit⟩ w hlen hall
    refine ⟨_, w', hfill, by simp, by simp, hheap, ?_, rfl, rfl⟩
    simp [List.range_eq_range']
  · intro h
    exact Pool.fill_error (max s 1) ⟨[], [], [], autoCommit⟩ w h

/-- C16 for a requested size 0 with one healthy reply: a pool of one slot,
free-queue `[0]`; and for size 2 when the second reply is no connection:
construction raises. -/
theorem C16_construction_all_or_nothing_witness :
    (∃ p w', Pool.create 0 false ⟨[], [.cxn true true true]⟩ = (.ok p, w') ∧
        p.connections = List.range' 0 (max 0 1) ∧
        p.connections.length = max 0 1 ∧
        w'.heap.length = 0 + max 0 1 ∧
        p.queue = List.range (max 0 1) ∧ p.reconnect = [] ∧ p.autoCommit = false) ∧
    (∃ e w', Pool.create 2 false ⟨[], [.cxn true true true, .null]⟩ = (.error e, w')) :=
  ⟨(C16_construction_all_or_nothing 0 false ⟨[], [.cxn true true true]⟩).1 (by decide),
   (C16_construction_all_or_nothing 2 false ⟨[], [.cxn true true true, .null]⟩).2
     (by decide)⟩

/-! ## Checkout with an empty free-queue -/

theorem logCall_append_right (l m : List BackendCxn) (k : Nat) (c : CxnCall) :
    logCall (l ++ m) (l.length + k) c = l ++ logCall m k c := by
  induction l with
  | nil => simp
  | cons b l ih =>
    have : (b :: l).length + k = (l.length + k) + 1 := by simp; omega
    rw [this]
    simp [logCall, ih]

theorem logCall_append_length (l : List BackendCxn) (b : BackendCxn) (m : List BackendCxn)
    (c : CxnCall) :
    logCall (l ++ b :: m) l.length c = l ++ { b with calls := b.calls ++ [c] } :: m := by
  have := logCall_append_right l (b :: m) 0 c
  simpa [logCall] using this

/-- With an empty free-queue and a reply that connects, `getConnection`
creates one connection, calls `setAutoCommit`, `connect()` and one `test()` on
it, and returns or raises by the answer of `test()`. -/
theorem Pool.getConnection_transient (connections reconnect : List Nat) (autoCommit : Bool)
    (heap : List BackendCxn) (tOk rOk : Bool) (ds : List DriverReply) :
    Pool.getConnection ⟨connections, [], reconnect, autoCommit⟩
        ⟨heap, .cxn true tOk rOk :: ds⟩ =
      (if tOk then .returned ⟨heap.length, false⟩
        else .threw (.dbException "Unable to connect to the database"),
       ⟨connections, [], reconnect, autoCommit⟩,
       ⟨heap ++ [⟨true, tOk, rOk, [.setAutoCommit autoCommit, .connect, .test]⟩], ds⟩) := by
  simp only [Pool.getConnection, Pool.connect, World.call, World.testOk, if_true,
    logCall_append_length, List.nil_append, List.singleton_append]
  have hget : (heap ++ [(⟨true, tOk, rOk, [.setAutoCommit autoCommit, .connect]⟩ :
      BackendCxn)])[heap.length]?
      = some ⟨true, tOk, rOk, [.setAutoCommit autoCommit, .connect]⟩ := by
    simp
  simp only [hget]
  cases tOk <;> simp

/-- C13. For a pool with an empty free-queue, whatever the world:
(1) `getConnection` leaves the free-queue, the reconnect-queue and the
connection collection as they were, in every outcome;
(2) it either returns a wrapper without release callback, whose destruction
leaves the pool as it is, or raises;
(3) when the driver hands out a connection that connects, exactly one backend
connection is created, it receives `setAutoCommit`, `connect()` and exactly one
`test()`, and the call returns it without release callback if `test()` is true
and raises the DBException if `test()` is false. -/
theorem C13_empty_queue_checkout_is_transient (connections reconnect : List Nat)
    (autoCommit : Bool) (w : World) (heap : List BackendCxn) (tOk rOk : Bool)
    (ds : List DriverReply) :
    (Pool.getConnection ⟨connections, [], reconnect, autoCommit⟩ w).2.1
      = ⟨connections, [], reconnect, autoCommit⟩ ∧
    ((∃ c, (Pool.getConnection ⟨connections, [], reconnect, autoCommit⟩ w).1 = .returned c ∧
        c.poolRelease = false ∧
        c.destroy ⟨connections, [], reconnect, autoCommit⟩
          = ⟨connections, [], reconnect, autoCommit⟩) ∨
      ∃ e, (Pool.getConnection ⟨connections, [], reconnect, autoCommit⟩ w).1 = .threw e) ∧
    Pool.getConnection ⟨connections, [], reconnect, autoCommit⟩
        ⟨heap, .cxn true tOk rOk :: ds⟩ =
      (if tOk then .returned ⟨heap.length, false⟩
        else .threw (.dbException "Unable to connect to the database"),
       ⟨connections, [], reconnect, autoCommit⟩,
       ⟨heap ++ [⟨true, tOk, rOk, [.setAutoCommit autoCommit, .connect, .test]⟩], ds⟩) := by
  refine ⟨?_, ?_, Pool.getConnection_transient _ _ _ _ _ _ _⟩
  · simp only [Pool.getConnection]
    rcases hc : Pool.connect ⟨connections, [], reconnect, autoCommit⟩ w with ⟨r, w1⟩
    cases r with
    | error e => rfl
    | ok cxn => simp only; split <;> rfl
  · simp only [Pool.getConnection]
    rcases hc : Pool.connect ⟨connections, [], reconnect, autoCommit⟩ w with ⟨r, w1⟩
    cases r with
    | error e => exact Or.inr ⟨e, rfl⟩
    | ok cxn =>
      simp only
      split
      · exact Or.inl ⟨_, rfl, rfl, rfl⟩
      · exact Or.inr ⟨_, rfl⟩

/-! ## The scenario of two checkouts and an overflow checkout -/

/-- A reply that connects: `Pool::connect` appends the new connection to the
heap, with `setAutoCommit` and `connect()` in its log. -/
theorem Pool.connect_cxn (p : Pool) (heap : List BackendCxn) (tOk rOk : Bool)
    (ds : List DriverReply) :
    p.connect ⟨heap, .cxn true tOk rOk :: ds⟩ =
      (.ok heap.length,
        ⟨heap ++ [⟨true, tOk, rOk, [.setAutoCommit p.autoCommit, .connect]⟩], ds⟩) := by
  simp only [Pool.connect, World.call, if_true, logCall_append_length, List.nil_append,
    List.singleton_append]

theorem World.testOk_append (l m : List BackendCxn) (ds : List DriverReply) (k : Nat) :
    World.testOk ⟨l ++ m, ds⟩ (l.length + k) = World.testOk ⟨m, ds⟩ k := by
  unfold World.testOk
  simp only
  rw [List.getElem?_append_right (Nat.le_add_right _ _), Nat.add_sub_cancel_left]

/-- A free-queue whose front slot passes `test()`: the checkout returns that
slot in a wrapper with release callback. -/
theorem Pool.getConnection_front (p : Pool) (w : World) (i ptr : Nat) (rest : List Nat)
    (hq : p.queue = i :: rest) (hi : p.connections[i]? = some ptr)
    (ht : w.testOk ptr = true) :
    p.getConnection w =
      (.returned ⟨ptr, true⟩, { p with queue := rest },
        (w.call ptr .test).call ptr (.setAutoCommit p.autoCommit)) := by
  unfold Pool.getConnection
  rw [hq]
  simp only [Pool.getLoop, hi, ht, if_true]

/-- C12. A pool of size 2 is constructed in any world whose driver hands out
connections that connect and pass the liveness test (`n` backend connections
exist before). Its slots hold the handles `n` and `n + 1`. The first
`getConnection` returns a wrapper with release callback bound to slot 0, the
second, made without a release, one bound to slot 1. The third, made while
both are checked out, returns (it does not poll the free-queue) a wrapper
without release callback on the connection `n + 2`, created by this call and
no slot of the pool; the pool's collection stays as it was. -/
theorem C12_two_checkouts_then_transient (heap : List BackendCxn) (autoCommit r1 r2 r3 : Bool)
    (ds : List DriverReply) :
    ∃ p w p1 w1 p2 w2 p3 w3,
      Pool.create 2 autoCommit
          ⟨heap, .cxn true true r1 :: .cxn true true r2 :: .cxn true true r3 :: ds⟩
        = (.ok p, w) ∧
      p.connections = [heap.length, heap.length + 1] ∧ w.heap.length = heap.length + 2 ∧
      p.getConnection w = (.returned ⟨heap.length, true⟩, p1, w1) ∧
      p1.getConnection w1 = (.returned ⟨heap.length + 1, true⟩, p2, w2) ∧
      p2.getConnection w2 = (.returned ⟨heap.length + 2, false⟩, p3, w3) ∧
      findPos heap.length p.connections = some 0 ∧
      findPos (heap.length + 1) p.connections = some 1 ∧
      findPos (heap.length + 2) p.connections = none ∧
      p3.connections = p.connections ∧ w3.heap.length = heap.length + 3 := by
  have hcreate : Pool.create 2 autoCommit
      ⟨heap, .cxn true true r1 :: .cxn true true r2 :: .cxn true true r3 :: ds⟩ =
      (.ok ⟨[heap.length, heap.length + 1], [0, 1], [], autoCommit⟩,
        ⟨heap ++ [⟨true, true, r1, [.setAutoCommit autoCommit, .connect]⟩,
          ⟨true, true, r2, [.setAutoCommit autoCommit, .connect]⟩],
          .cxn true true r3 :: ds⟩) := by
    simp [Pool.create, Pool.fill, Pool.connect_cxn]
  have ht0 : World.testOk ⟨heap ++ [⟨true, true, r1, [.setAutoCommit autoCommit, .connect]⟩,
          ⟨true, true, r2, [.setAutoCommit autoCommit, .connect]⟩],
          .cxn true true r3 :: ds⟩ heap.length = true :=
    World.testOk_append heap _ _ 0
  have ht1 : World.testOk ⟨heap ++ [⟨true, true, r1, [.setAutoCommit autoCommit, .connect]⟩,
          ⟨true, true, r2, [.setAutoCommit autoCommit, .connect]⟩],
          .cxn true true r3 :: ds⟩ (heap.length + 1) = true :=
    World.testOk_append heap _ _ 1
  have hg1 := Pool.getConnection_front ⟨[heap.length, heap.length + 1], [0, 1], [], autoCommit⟩
    _ 0 heap.length [1] rfl rfl ht0
  have hg2 := Pool.getConnection_front ⟨[heap.length, heap.length + 1], [1], [], autoCommit⟩
    ((World.call ⟨heap ++ [⟨true, true, r1, [.setAutoCommit autoCommit, .connect]⟩,
          ⟨true, true, r2, [.setAutoCommit autoCommit, .connect]⟩],
          .cxn true true r3 :: ds⟩ heap.length .test).call heap.length
        (.setAutoCommit autoCommit))
    1 (heap.length + 1) [] rfl rfl (by rw [World.call_testOk, World.call_testOk]; exact ht1)
  have hg3 := Pool.getConnection_transient [heap.length, heap.length + 1] [] autoCommit
    (logCall (logCall (logCall (logCall
      (heap ++ [⟨true, true, r1, [.setAutoCommit autoCommit, .connect]⟩,
          ⟨true, true, r2, [.setAutoCommit autoCommit, .connect]⟩])
      heap.length .test) heap.length (.setAutoCommit autoCommit))
      (heap.length + 1) .test) (heap.length + 1) (.setAutoCommit autoCommit)) true r3 ds
  have hlen : (logCall (logCall (logCall (logCall
      (heap ++ [⟨true, true, r1, [.setAutoCommit autoCommit, .connect]⟩,
          ⟨true, true, r2, [.setAutoCommit autoCommit, .connect]⟩])
      heap.length .test) heap.length (.setAutoCommit autoCommit))
      (heap.length + 1) .test) (heap.length + 1) (.setAutoCommit autoCommit)).length
      = heap.length + 2 := by
    simp [logCall_length]
  simp only [if_true] at hg3
  rw [hlen] at hg3
  refine ⟨_, _, _, _, _, _, _, _, hcreate, rfl, by simp, hg1, hg2, hg3, ?_, ?_, ?_, rfl, ?_⟩
  · simp [findPos]
  · simp [findPos]
  · simp [findPos]
  · simp [logCall_length]

/-! ## Trimming of the query text -/

theorem trim_eq (q : List Char) :
    trim q = List.rdropWhile isspace (q.dropWhile isspace) := rfl

theorem rdropWhile_append_rtakeWhile (p : Char → Bool) (l : List Char) :
    l.rdropWhile p ++ l.rtakeWhile p = l := by
  unfold List.rdropWhile List.rtakeWhile
  rw [← List.reverse_append, List.takeWhile_append_dropWhile, List.reverse_reverse]

/-- The query is its trimmed text between a run of whitespace before and a run
of whitespace behind. -/
theorem trim_decompose (q : List Char) :
    ∃ front back, q = front ++ trim q ++ back ∧
      (∀ x ∈ front, isspace x = true) ∧ (∀ x ∈ back, isspace x = true) := by
  refine ⟨q.takeWhile isspace, (q.dropWhile isspace).rtakeWhile isspace, ?_,
    fun x hx => List.mem_takeWhile_imp hx, fun x hx => List.mem_rtakeWhile_imp hx⟩
  rw [trim_eq, List.append_assoc, rdropWhile_append_rtakeWhile,
    List.takeWhile_append_dropWhile]

/-- The trimmed text does not start with whitespace. -/
theorem trim_head (q : List Char) (x : Char) (h : (trim q).head? = some x) :
    isspace x = false := by
  have hpre : trim q <+: q.dropWhile isspace := by
    rw [trim_eq]; exact List.rdropWhile_prefix _ _
  obtain ⟨s, hs⟩ := hpre
  have hnot := List.head?_dropWhile_not isspace q
  cases ht : trim q with
  | nil => rw [ht] at h; simp at h
  | cons y t =>
    rw [ht] at h hs
    have hy : y = x := by simpa using h
    rw [← hs] at hnot
    simpa [hy] using hnot

/-- The trimmed text does not end with whitespace. -/
theorem trim_getLast (q : List Char) (x : Char) (h : (trim q).getLast? = some x) :
    isspace x = false := by
  have hne : (q.dropWhile isspace).rdropWhile isspace ≠ [] := by
    intro hnil
    rw [trim_eq, hnil] at h
    simp at h
  have hlast := List.rdropWhile_last_not isspace (q.dropWhile isspace) hne
  rw [trim_eq, List.getLast?_eq_getLast _ hne] at h
  have hx := Option.some.inj h
  rw [hx] at hlast
  simpa using hlast

theorem trim_of_all_space (q : List Char) (h : ∀ x ∈ q, isspace x = true) : trim q = [] := by
  have : q.dropWhile isspace = [] := List.dropWhile_eq_nil_iff.mpr h
  rw [trim_eq, this]
  rfl

theorem trim_idempotent (q : List Char) : trim (trim q) = trim q := by
  have hdrop : (trim q).dropWhile isspace = trim q := by
    cases ht : trim q with
    | nil => rfl
    | cons y t =>
      have hy := trim_head q y (by rw [ht]; rfl)
      simp [List.dropWhile, hy]
  conv_lhs => rw [trim_eq, hdrop]
  rw [trim_eq]
  exact List.rdropWhile_idempotent _ _

/-- C19. For every query string `q`, `Connection::createStatement` calls the
backend's `createStatement` of its own backend handle with the trimmed text,
where: (1) `q` is some whitespace, then the trimmed text, then some whitespace,
so every other character is passed unchanged and in place; (2) the trimmed
text neither starts nor ends with a whitespace character, so both removed runs
are maximal; (3) for a `q` of whitespace only the trimmed text is empty;
(4) trimming the trimmed text changes nothing. Whitespace is `isspace` of the C
locale. -/
theorem C19_createStatement_trims (c : Connection) (q : String) :
    c.createStatement q = (c.connection, String.mk (trim q.toList)) ∧
    (∃ front back, q.toList = front ++ trim q.toList ++ back ∧
      (∀ x ∈ front, isspace x = true) ∧ (∀ x ∈ back, isspace x = true)) ∧
    (∀ x, (trim q.toList).head? = some x → isspace x = false) ∧
    (∀ x, (trim q.toList).getLast? = some x → isspace x = false) ∧
    ((∀ x ∈ q.toList, isspace x = true) → c.createStatement q = (c.connection, "")) ∧
    trim (trim q.toList) = trim q.toList :=
  ⟨rfl, trim_decompose _, trim_head _, trim_getLast _,
    fun h => by
      unfold Connection.createStatement
      rw [trim_of_all_space _ h],
    trim_idempotent _⟩

/-- C19 on two queries: surrounding blanks, tab and newline are removed and the
inner blank is kept; a query of whitespace only is passed as the empty
string. -/
theorem C19_createStatement_trims_witness :
    Connection.createStatement ⟨7, false⟩ "  \t select 1 \n " = (7, "select 1") ∧
    Connection.createStatement ⟨7, false⟩ " \t\n " = (7, "") :=
  ⟨by decide,
   (C19_createStatement_trims ⟨7, false⟩ " \t\n ").2.2.2.2.1 (by decide)⟩

/-! ## The position counter of `operator<<` -/

theorem shiftsSinceExecution_snoc (ops : List StmtOp) (op : StmtOp) :
    shiftsSinceExecution (ops ++ [op]) =
      if op.isReturnedExecution then 0
      else shiftsSinceExecution ops + (if op.isShift then 1 else 0) := by
  unfold shiftsSinceExecution
  rw [List.reverse_append, List.reverse_singleton, List.singleton_append, List.takeWhile_cons]
  cases hr : op.isReturnedExecution <;> cases hs : op.isShift <;> simp [hs]

/-- What one wrapper call does to `nextParam`. -/
theorem Statement.step_nextParam (s : Statement) (op : StmtOp) :
    (s.step op).nextParam =
      if op.isReturnedExecution then 0
      else if op.isShift then (s.nextParam + 1) % 2 ^ 64 else s.nextParam := by
  cases op with
  | setParamNull i t a =>
    cases hr : s.reset <;>
      simp [Statement.step, Statement.setParamNull, Statement.send, Statement.checkReset,
        StmtOp.isReturnedExecution, StmtOp.isShift, hr]
  | setParamValue i v a =>
    cases hr : s.reset <;>
      simp [Statement.step, Statement.setParamValue, Statement.send, Statement.checkReset,
        StmtOp.isReturnedExecution, StmtOp.isShift, hr]
  | setParamPtr i p a =>
    cases p <;> cases hr : s.reset <;>
      simp [Statement.step, Statement.setParamPtr, Statement.setParamNull,
        Statement.setParamValue, Statement.send, Statement.checkReset,
        StmtOp.isReturnedExecution, StmtOp.isShift, hr]
  | setParamCStr i t a =>
    cases t <;> cases hr : s.reset <;>
      simp [Statement.step, Statement.setParamCStr, Statement.setParamNull, Statement.send,
        Statement.checkReset, StmtOp.isReturnedExecution, StmtOp.isShift, hr]
  | shiftNull a =>
    cases hr : s.reset <;>
      simp [Statement.step, Statement.shiftNull, Statement.setParamNull, Statement.send,
        Statement.checkReset, StmtOp.isReturnedExecution, StmtOp.isShift, hr]
  | shift o a =>
    cases o with
    | value v =>
      cases hr : s.reset <;>
        simp [Statement.step, Statement.shift, Statement.setParamValue, Statement.send,
          Statement.checkReset, StmtOp.isReturnedExecution, StmtOp.isShift, hr]
    | ptr p =>
      cases p <;> cases hr : s.reset <;>
        simp [Statement.step, Statement.shift, Statement.setParamPtr, Statement.setParamNull,
          Statement.setParamValue, Statement.send, Statement.checkReset,
          StmtOp.isReturnedExecution, StmtOp.isShift, hr]
    | cstr t =>
      cases t <;> cases hr : s.reset <;>
        simp [Statement.step, Statement.shift, Statement.setParamCStr, Statement.setParamNull,
          Statement.send, Statement.checkReset, StmtOp.isReturnedExecution, StmtOp.isShift, hr]
  | execute r =>
    cases r <;>
      simp [Statement.step, Statement.execute, Statement.send, StmtOp.isReturnedExecution,
        StmtOp.isShift]
  | executeUpdate r =>
    cases r <;>
      simp [Statement.step, Statement.executeUpdate, Statement.send,
        StmtOp.isReturnedExecution, StmtOp.isShift]

theorem Statement.run_snoc (s : Statement) (ops : List StmtOp) (op : StmtOp) :
    s.run (ops ++ [op]) = (s.run ops).step op := by
  simp [Statement.run, List.foldl_append]

/-- The counter `nextParam` is the number of `operator<<` calls since the last
execution that returned, as a `size_t`. -/
theorem Statement.nextParam_run (ops : List StmtOp) :
    (Statement.new.run ops).nextParam = shiftsSinceExecution ops % 2 ^ 64 := by
  induction ops using List.reverseRecOn with
  | nil => rfl
  | append_singleton ops op ih =>
    rw [Statement.run_snoc, Statement.step_nextParam, shiftsSinceExecution_snoc, ih]
    cases op.isReturnedExecution <;> cases op.isShift <;> simp

/-- The binding an `operator<<` call forwards is the last call of the log and
sits at position `nextParam`. -/
theorem Statement.shift_last (s : Statement) (op : StmtOp) (h : op.isShift = true) :
    (s.step op).calls.getLast?.bind StmtCall.parameter = some s.nextParam := by
  cases op with
  | shiftNull a =>
    cases hr : s.reset <;>
      simp [Statement.step, Statement.shiftNull, Statement.setParamNull, Statement.send,
        Statement.checkReset, StmtCall.parameter, hr]
  | shift o a =>
    cases o with
    | value v =>
      cases hr : s.reset <;>
        simp [Statement.step, Statement.shift, Statement.setParamValue, Statement.send,
          Statement.checkReset, StmtCall.parameter, hr]
    | ptr p =>
      cases p <;> cases hr : s.reset <;>
        simp [Statement.step, Statement.shift, Statement.setParamPtr, Statement.setParamNull,
          Statement.setParamValue, Statement.send, Statement.checkReset, StmtCall.parameter, hr]
    | cstr t =>
      cases t <;> cases hr : s.reset <;>
        simp [Statement.step, Statement.shift, Statement.setParamCStr, Statement.setParamNull,
          Statement.send, Statement.checkReset, StmtCall.parameter, hr]
  | setParamNull i t a => simp [StmtOp.isShift] at h
  | setParamValue i v a => simp [StmtOp.isShift] at h
  | setParamPtr i p a => simp [StmtOp.isShift] at h
  | setParamCStr i t a => simp [StmtOp.isShift] at h
  | execute r => simp [StmtOp.isShift] at h
  | executeUpdate r => simp [StmtOp.isShift] at h

/-- C20. After any sequence `ops` of calls on a new Statement wrapper, an
`operator<<` call, with a value, a typed pointer (null or not), a
`const char *` or `nullptr` as operand, forwards a binding whose parameter
position is the number of `operator<<` calls made since the last execution
that returned, or since construction when none did, taken as a `size_t`, that
is modulo `2^64`. So while fewer than `2^64` such calls were made the `k`-th of
them binds position `k - 1`. In particular `stmt << a << b << c` binds `a`,
`b`, `c` at positions 0, 1, 2 in that order, and the first `operator<<` after
an `execute( )` or `executeUpdate( )` that returned binds position 0. -/
theorem C20_shift_binds_next_position (ops : List StmtOp) (operand : Operand)
    (ans : Bool) (a b c : Value) (updated : Int) :
    (backendLog (ops ++ [.shift operand ans])).getLast?.bind StmtCall.parameter
      = some (shiftsSinceExecution ops % 2 ^ 64) ∧
    (backendLog (ops ++ [.shiftNull ans])).getLast?.bind StmtCall.parameter
      = some (shiftsSinceExecution ops % 2 ^ 64) ∧
    (shiftsSinceExecution ops < 2 ^ 64 →
      (backendLog (ops ++ [.shift operand ans])).getLast?.bind StmtCall.parameter
        = some (shiftsSinceExecution ops) ∧
      (backendLog (ops ++ [.shiftNull ans])).getLast?.bind StmtCall.parameter
        = some (shiftsSinceExecution ops)) ∧
    backendLog [.shift (.value a) true, .shift (.value b) true, .shift (.value c) true]
      = [.setParam 0 a, .setParam 1 b, .setParam 2 c] ∧
    (backendLog (ops ++ [.execute none] ++ [.shift operand ans])).getLast?.bind
      StmtCall.parameter = some 0 ∧
    (backendLog (ops ++ [.executeUpdate (.ok updated)] ++ [.shift operand ans])).getLast?.bind
      StmtCall.parameter = some 0 := by
  have key : ∀ (l : List StmtOp) (op : StmtOp), op.isShift = true →
      (backendLog (l ++ [op])).getLast?.bind StmtCall.parameter
        = some (shiftsSinceExecution l % 2 ^ 64) := by
    intro l op h
    unfold backendLog
    rw [Statement.run_snoc, Statement.shift_last _ _ h, Statement.nextParam_run]
  refine ⟨key _ _ rfl, key _ _ rfl, ?_, rfl, ?_, ?_⟩
  · intro hlt
    rw [key ops (StmtOp.shift operand ans) rfl, key ops (StmtOp.shiftNull ans) rfl,
      Nat.mod_eq_of_lt hlt]
    exact ⟨rfl, rfl⟩
  · have h1 := key (ops ++ [StmtOp.execute none]) (StmtOp.shift operand ans) rfl
    rw [h1, shiftsSinceExecution_snoc]
    rfl
  · have h1 := key (ops ++ [StmtOp.executeUpdate (.ok updated)]) (StmtOp.shift operand ans) rfl
    rw [h1, shiftsSinceExecution_snoc]
    rfl

/-- C20 after two `operator<<` calls on a new wrapper: two such calls were
made, and the third, with a value or with `nullptr`, binds position 2. -/
theorem C20_shift_binds_next_position_witness :
    shiftsSinceExecution [.shift (.value ⟨.int32, "1"⟩) true, .shiftNull true] < 2 ^ 64 ∧
    shiftsSinceExecution [.shift (.value ⟨.int32, "1"⟩) true, .shiftNull true] = 2 ∧
    (backendLog ([.shift (.value ⟨.int32, "1"⟩) true, .shiftNull true] ++
        [.shift (.value ⟨.int32, "3"⟩) true])).getLast?.bind StmtCall.parameter
      = some (shiftsSinceExecution [.shift (.value ⟨.int32, "1"⟩) true, .shiftNull true]) ∧
    (backendLog ([.shift (.value ⟨.int32, "1"⟩) true, .shiftNull true] ++
        [.shiftNull true])).getLast?.bind StmtCall.parameter
      = some (shiftsSinceExecution [.shift (.value ⟨.int32, "1"⟩) true, .shiftNull true]) :=
  ⟨by decide, by decide,
    (C20_shift_binds_next_position [.shift (.value ⟨.int32, "1"⟩) true, .shiftNull true]
      (.value ⟨.int32, "3"⟩) true ⟨.int32, "1"⟩ ⟨.int32, "2"⟩ ⟨.int32, "3"⟩ 0).2.2.1
      (by decide)⟩

/-! ## Pointer bindings, SQLite names and null binding, the type decoder -/

/-- C21. For every state of the wrapper, position `i` and pointee type `T`:
`setParam( i, p )` with `p` a null `T *` sends the backend, after the `reset`
that a pending execution asks for, exactly `setParamNull( i, T' )` with `T'`
the canonical type of `T`, and no value binding; with `p` pointing to `v` it
sends exactly `setParam( i, v )` and no null binding. The same holds for
`const char *`, whose canonical type is that of `std::string`. The canonical
type of `int32_t` is INTEGER, that of `std::string` VARCHAR. The call returns
what the backend answers. -/
theorem C21_pointer_binding_forwards_null_or_value (s : Statement) (i : Nat) (ans : Bool) :
    (∀ T, s.setParamPtr i (.null T) ans =
      (ans, { s with
        reset := false
        calls := s.calls ++ (if s.reset then [StmtCall.reset] else []) ++
          [StmtCall.setParamNull i (FieldTypeDecoder.type T)] })) ∧
    (∀ v, s.setParamPtr i (.pointsTo v) ans =
      (ans, { s with
        reset := false
        calls := s.calls ++ (if s.reset then [StmtCall.reset] else []) ++
          [StmtCall.setParam i v] })) ∧
    s.setParamCStr i none ans =
      (ans, { s with
        reset := false
        calls := s.calls ++ (if s.reset then [StmtCall.reset] else []) ++
          [StmtCall.setParamNull i .VARCHAR] }) ∧
    (∀ text, s.setParamCStr i (some text) ans =
      (ans, { s with
        reset := false
        calls := s.calls ++ (if s.reset then [StmtCall.reset] else []) ++
          [StmtCall.setParam i ⟨.string, text⟩] })) ∧
    FieldTypeDecoder.type .int32 = .INTEGER ∧ FieldTypeDecoder.type .string = .VARCHAR := by
  obtain ⟨n, r, calls⟩ := s
  cases r <;>
    simp [Statement.setParamPtr, Statement.setParamCStr, Statement.setParamNull,
      Statement.setParamValue, Statement.checkReset, Statement.send, FieldTypeDecoder.type]

theorem SQLiteStatement.readRow_names_length (names : List String) (row : List COLUMN)
    (todo field : Nat) (columns : List COLUMN) (columnTypes : List SqlType)
    (columnNames : List String) :
    (SQLiteStatement.readRow names row todo field columns columnTypes columnNames).2.2.length
      = columnNames.length + todo := by
  induction todo generalizing field columns columnTypes columnNames with
  | zero => rfl
  | succ todo ih =>
    simp only [SQLiteStatement.readRow]
    rw [ih]
    simp only [List.length_append, List.length_singleton]
    omega

theorem SQLiteStatement.stepRows_names_length (s : SQLiteStatement) (rows : List (List COLUMN)) :
    (s.stepRows rows).columnNames.length = s.columnNames.length + rows.length * s.fields ∧
      (s.stepRows rows).fields = s.fields := by
  induction rows generalizing s with
  | nil => simp [SQLiteStatement.stepRows]
  | cons row more ih =>
    simp only [SQLiteStatement.stepRows]
    obtain ⟨h1, h2⟩ := ih
      { s with
        columnTypes := (SQLiteStatement.readRow s.names row s.fields 0 [] s.columnTypes
          s.columnNames).2.1
        columnNames := (SQLiteStatement.readRow s.names row s.fields 0 [] s.columnTypes
          s.columnNames).2.2
        results := s.results ++ [(SQLiteStatement.readRow s.names row s.fields 0 []
          s.columnTypes s.columnNames).1] }
    refine ⟨?_, h2⟩
    rw [h1]
    simp only [SQLiteStatement.readRow_names_length, List.length_cons]
    ring

/-- C22. A SQLite statement with result columns `id` and `v` is executed. When
the run steps through no row, `fieldNames( )` of the result set is empty while
`fields( )` is 2; with one row it is `ID`, `V`; with two rows it has four
entries, `ID`, `V`, `ID`, `V`. In general a new statement with `f` columns
whose execution steps through `n` rows has `n * f` names: `execute` appends the
names of all columns for every row it reads. -/
theorem C22_fieldNames_grow_with_rows :
    (((SQLiteStatement.new ["id", "v"]).execute [] (.ok 0)).2.getResults.map
      (fun r => (r.fields, r.fieldNames))) = some (2, []) ∧
    (((SQLiteStatement.new ["id", "v"]).execute [[.int64 1, .string "a"]]
      (.ok 0)).2.getResults.map (fun r => (r.fields, r.fieldNames))) = some (2, ["ID", "V"]) ∧
    (((SQLiteStatement.new ["id", "v"]).execute [[.int64 1, .string "a"],
      [.int64 2, .string "b"]] (.ok 0)).2.getResults.map
      (fun r => (r.fields, r.fieldNames))) = some (2, ["ID", "V", "ID", "V"]) ∧
    (∀ (names : List String) (rows : List (List COLUMN)) (changes : Nat),
      ((SQLiteStatement.new names).execute rows (.ok changes)).2.columnNames.length
        = rows.length * names.length) := by
  refine ⟨by decide, by decide, by decide, ?_⟩
  intro names rows changes
  simp only [SQLiteStatement.execute]
  rw [(SQLiteStatement.stepRows_names_length _ rows).1]
  simp [SQLiteStatement.new]

/-- C25. For every parameter index, declared type and result code of
`sqlite3_bind_null`: `SQLiteStatement::setParamNull` returns false for the code
0, which is `SQLITE_OK`, and true for every other code, because the `int` is
returned as `bool`; the value-binding overloads return true for 0 and false
otherwise. -/
theorem C25_setParamNull_true_on_failure (s : SQLiteStatement) (parameter : Nat)
    (type : FieldType) (value : Value) (rc : Nat) :
    (s.setParamNull parameter type 0).1 = false ∧
    (s.setParamNull parameter type (rc + 1)).1 = true ∧
    (s.setParam parameter value 0).1 = true ∧
    (s.setParam parameter value (rc + 1)).1 = false := by
  simp [SQLiteStatement.setParamNull, SQLiteStatement.setParam]

/-- C26. The decoder maps `int8_t` to CHAR, and no host type to TINYINT, the
enumerator documented as the 1 byte integer `int8_t`; so a null `int8_t *`
bound at position `i` reaches the backend as `setParamNull( i, CHAR )`. The
other mappings are as claimed: `int16_t` to SMALLINT, `int32_t` to INTEGER,
`int64_t` to BIGINT, `double` to DOUBLE, `bool` to BOOLEAN, `std::string` to
VARCHAR, `VarByte` to VARBYTE, `DBTime` to TIMESTAMP. -/
theorem C26_int8_decodes_to_CHAR :
    FieldTypeDecoder.type .int8 = .CHAR ∧
    (∀ h, FieldTypeDecoder.type h ≠ .TINYINT) ∧
    (Statement.new.setParamPtr 0 (.null .int8) true).2.calls
      = [StmtCall.setParamNull 0 .CHAR] ∧
    FieldTypeDecoder.type .int16 = .SMALLINT ∧ FieldTypeDecoder.type .int32 = .INTEGER ∧
    FieldTypeDecoder.type .int64 = .BIGINT ∧ FieldTypeDecoder.type .double = .DOUBLE ∧
    FieldTypeDecoder.type .bool = .BOOLEAN ∧ FieldTypeDecoder.type .string = .VARCHAR ∧
    FieldTypeDecoder.type .varByte = .VARBYTE ∧ FieldTypeDecoder.type .dbTime = .TIMESTAMP := by
  refine ⟨rfl, ?_, rfl, rfl, rfl, rfl, rfl, rfl, rfl, rfl, rfl⟩
  intro h
  cases h <;> decide

/-- C27. The text `select * from t` is a SELECT and holds no letter `u`, so
the phrase `for update` does not occur in it; yet `find_an` returns a `first`
that is not the end of the text but position 9, that of the `f` of `from`: the
position is stored when the first letter of the phrase matches and is not
taken back when the match breaks off. The constructor therefore declares the
cursor WITHOUT HOLD. A SELECT without any `f`, such as `select 1`, is declared
WITH HOLD. -/
theorem C27_select_from_declared_without_hold :
    queryType "select * from t" = .SELECT ∧
    'u' ∉ "select * from t".toList.map tolower ∧
    find_an "select * from t".toList FOR_UPDATE_PAT.toList = some (some 9, 15) ∧
    forUpdate "select * from t" = true ∧
    PSQLStatement.query "c1" "select * from t"
      = .ok "DECLARE c1 CURSOR WITHOUT HOLD FOR select * from t" ∧
    PSQLStatement.query "c1" "select 1" = .ok "DECLARE c1 CURSOR WITH HOLD FOR select 1" := by
  refine ⟨by decide, by decide, by decide, by decide, by decide, by decide⟩


/-! ## Base-0 reading and failed executions -/

theorem readDigits_takeWhile (base : Nat) (text : List Char) (acc : Nat) :
    readDigits base text acc = readDigits base (text.takeWhile (isDigitOf base)) acc := by
  induction text generalizing acc with
  | nil => rfl
  | cons c cs ih =>
    cases hd : digitValue c with
    | none => simp [readDigits, List.takeWhile, isDigitOf, hd]
    | some d =>
      by_cases hb : d < base
      · simp only [readDigits, List.takeWhile, isDigitOf, hd, hb, decide_True, if_true]
        exact ih _
      · simp [readDigits, List.takeWhile, isDigitOf, hd, hb]

theorem readDigits_invalid (base : Nat) (c : Char) (cs : List Char) (acc : Nat)
    (h : isDigitOf base c = false) : readDigits base (c :: cs) acc = acc := by
  rw [readDigits_takeWhile]
  simp [List.takeWhile, h, readDigits]

/-- C29. For a field that overrides only the string getter, the default
`uint64_t` getter is `strtoll` of the text with base 0, converted to
`uint64_t`, and the `int64_t` getter that value as `int64_t`. After the
whitespace and sign that `strtoll` skips, the magnitude of a text starting
with `0x` or `0X` is read from the characters after it in base 16, that of any
other text starting with `0` in base 8, every other text in base 10; reading
in a base uses the longest run of digits of that base at the front and
nothing after it, and gives 0 when that run is empty. So the `uint64_t` getter
returns 8 for `010`, 16 for `0x10`, 0 for `08`, 0 for the empty string, and 16
for `0X10` after a blank and a plus sign. -/
theorem C29_default_getters_read_base_zero (text : String) (c : Char) (cs : List Char)
    (base acc : Nat) :
    (Field.ofString (.ok text)).getUInt64 = .ok (toUnsigned 64 (strtoll text.toList)) ∧
    (Field.ofString (.ok text)).getInt64
      = .ok (toSigned 64 (toUnsigned 64 (strtoll text.toList))) ∧
    strtoll (' ' :: cs) = strtoll cs ∧
    readMagnitude ('0' :: c :: cs)
      = (if c = 'x' ∨ c = 'X' then readDigits 16 cs 0 else readDigits 8 (c :: cs) 0) ∧
    readMagnitude ['0'] = 0 ∧
    readMagnitude (c :: cs)
      = (if c = '0' then readMagnitude ('0' :: cs) else readDigits 10 (c :: cs) 0) ∧
    readDigits base cs acc = readDigits base (cs.takeWhile (isDigitOf base)) acc ∧
    readDigits base [] 0 = 0 ∧
    (Field.ofString (.ok "010")).getUInt64 = .ok 8 ∧
    (Field.ofString (.ok "0x10")).getUInt64 = .ok 16 ∧
    (Field.ofString (.ok "08")).getUInt64 = .ok 0 ∧
    (Field.ofString (.ok "")).getUInt64 = .ok 0 ∧
    (Field.ofString (.ok " +0X10")).getUInt64 = .ok 16 := by
  refine ⟨rfl, rfl, ?_, ?_, by decide, ?_, readDigits_takeWhile base cs acc, rfl,
    by decide, by decide, by decide, by decide, by decide⟩
  · simp [strtoll, List.dropWhile, isspace]
  · by_cases hx : c = 'x' ∨ c = 'X'
    · rw [if_pos hx]
      cases cs with
      | nil => rcases hx with rfl | rfl <;> decide
      | cons d ds =>
        have hxb : (c = 'x' || c = 'X') = true := by simpa using hx
        cases hd : isHexDigit d with
        | true => simp [readMagnitude, hxb, hd]
        | false =>
          have h0 : readDigits 16 (d :: ds) 0 = 0 :=
            readDigits_invalid 16 d ds 0 (by simpa [isDigitOf, isHexDigit] using hd)
          have h8 : readDigits 8 ('0' :: c :: d :: ds) 0 = 0 := by
            rcases hx with rfl | rfl <;> simp [readDigits, digitValue]
          simp [readMagnitude, hxb, hd, h0, h8]
    · rw [if_neg hx]
      have hxb : (c = 'x' || c = 'X') = false := by simpa using hx
      have h0 : ∀ rest, readDigits 8 ('0' :: rest) 0 = readDigits 8 rest 0 := by
        intro rest
        simp [readDigits, digitValue]
      cases cs with
      | nil => simp [readMagnitude, h0]
      | cons d ds => simp [readMagnitude, hxb, h0]
  · by_cases h0 : c = '0'
    · simp [h0]
    · rw [if_neg h0]
      unfold readMagnitude
      split <;> simp_all

/-- C30. When the backend raises from `execute( )` or `executeUpdate( )`, the
wrapper passes the error on and its members are as before the call: the flag
`reset` and the counter `nextParam` keep their values, only the backend has
seen one more call. So the bind call that follows sends the backend a `reset`
exactly when the flag was set before the failed call, hence none on account
of the failed execution, and none at all when no execution was pending; and
the `operator<<` that follows binds at the unchanged position `nextParam`.
After a bind at position 0 and a failed execution the next `operator<<` binds
at position 1 without a `reset`; when a successful execution came between
the two, its `reset` and its position 0 are still due and are what the next
`operator<<` performs. -/
theorem C30_failed_execution_keeps_wrapper_state (s : Statement) (e : Error) (i : Nat)
    (type : FieldType) (v : Value) (ans : Bool) :
    (s.execute (some e)) = (.error e, { s with calls := s.calls ++ [.execute false] }) ∧
    (s.executeUpdate (.error e))
      = (.error e, { s with calls := s.calls ++ [.executeUpdate false] }) ∧
    ((s.execute (some e)).2.setParamNull i type ans).2.calls
      = s.calls ++ [.execute false] ++ (if s.reset then [StmtCall.reset] else []) ++
        [.setParamNull i type] ∧
    ((s.executeUpdate (.error e)).2.setParamNull i type ans).2.calls
      = s.calls ++ [.executeUpdate false] ++ (if s.reset then [StmtCall.reset] else []) ++
        [.setParamNull i type] ∧
    ((s.execute (some e)).2.shift (.value v) ans).calls
      = s.calls ++ [.execute false] ++ (if s.reset then [StmtCall.reset] else []) ++
        [.setParam s.nextParam v] ∧
    ((s.executeUpdate (.error e)).2.shift (.value v) ans).calls
      = s.calls ++ [.executeUpdate false] ++ (if s.reset then [StmtCall.reset] else []) ++
        [.setParam s.nextParam v] ∧
    ((s.execute (some e)).2.shift (.value v) ans).nextParam = (s.nextParam + 1) % 2 ^ 64 ∧
    ((Statement.new.shift (.value v) true).execute (some e)).2.reset = false ∧
    (((Statement.new.shift (.value v) true).execute (some e)).2.shift (.value v) true).calls
      = [.setParam 0 v, .execute false, .setParam 1 v] ∧
    ((((Statement.new.shift (.value v) true).execute none).2.execute (some e)).2.shift
        (.value v) true).calls
      = [.setParam 0 v, .execute true, .execute false, .reset, .setParam 0 v] := by
  obtain ⟨n, r, calls⟩ := s
  cases r <;>
    simp [Statement.execute, Statement.executeUpdate, Statement.setParamNull, Statement.shift,
      Statement.setParamValue, Statement.checkReset, Statement.send, Statement.new]


/-! ## The SQLite cursor -/

theorem SQLiteResultSet.afterNext_stmt (k : Nat) (r : SQLiteResultSet) :
    (r.afterNext k).stmt = r.stmt ∧ (r.afterNext k).rows = r.rows := by
  induction k with
  | zero => exact ⟨rfl, rfl⟩
  | succ k ih =>
    obtain ⟨h1, h2⟩ := ih
    exact ⟨by simpa [SQLiteResultSet.afterNext, SQLiteResultSet.next] using h1,
      by simpa [SQLiteResultSet.afterNext, SQLiteResultSet.next, SQLiteResultSet.rows] using h1 ▸ rfl⟩

theorem SQLiteResultSet.afterNext_current (k : Nat) (r : SQLiteResultSet) :
    (r.afterNext (k + 1)).current = (r.current + (k + 1)) % 2 ^ 64 := by
  induction k with
  | zero => rfl
  | succ k ih =>
    have h : (r.afterNext (k + 1 + 1)).current = ((r.afterNext (k + 1)).current + 1) % 2 ^ 64 :=
      rfl
    rw [h, ih]
    omega

theorem SQLiteResultSet.afterNext_new (k : Nat) (r : SQLiteResultSet)
    (hnew : r.current = 2 ^ 64 - 1) : (r.afterNext (k + 1)).row = k % 2 ^ 64 := by
  unfold SQLiteResultSet.row
  rw [SQLiteResultSet.afterNext_current, hnew]
  omega

/-- C23. For a new SQLite result set holding `n` rows, `n < 2^64 - 1`: each of
the first `n` calls of `next( )` returns true, and after the `k`-th of them
`row( )` is `k - 1`; the call `n + 1` and every later call up to the call
`2^64` returns false; and the cursor never moves to a lower row index: `row( )`
after call `j` is at most `row( )` after a later call `k`, for all calls up to
the call `2^64`, which is as far as the `size_t` cursor counts. -/
theorem C23_cursor_advances_until_wrap (r : SQLiteResultSet)
    (hnew : r.current = 2 ^ 64 - 1) (hn : r.rows < 2 ^ 64 - 1) :
    (∀ k, 1 ≤ k → k ≤ r.rows →
      (r.afterNext (k - 1)).next.1 = true ∧ (r.afterNext k).row = k - 1) ∧
    (r.afterNext r.rows).next.1 = false ∧
    (∀ k, r.rows < k → k ≤ 2 ^ 64 → (r.afterNext (k - 1)).next.1 = false) ∧
    (∀ j k, 1 ≤ j → j ≤ k → k ≤ 2 ^ 64 → (r.afterNext j).row ≤ (r.afterNext k).row) := by
  have hret : ∀ k, 1 ≤ k →
      (r.afterNext (k - 1)).next.1 = decide ((k - 1) % 2 ^ 64 < r.rows) := by
    intro k hk
    obtain ⟨m, rfl⟩ : ∃ m, k = m + 1 := ⟨k - 1, by omega⟩
    have h1 : (r.afterNext m).next.1
        = decide ((r.afterNext (m + 1)).row < (r.afterNext m).rows) := rfl
    rw [Nat.add_sub_cancel, h1, SQLiteResultSet.afterNext_new m r hnew,
      (SQLiteResultSet.afterNext_stmt m r).2]
  have hrow : ∀ k, 1 ≤ k → k ≤ 2 ^ 64 → (r.afterNext k).row = k - 1 := by
    intro k hk hle
    obtain ⟨m, rfl⟩ : ∃ m, k = m + 1 := ⟨k - 1, by omega⟩
    rw [SQLiteResultSet.afterNext_new m r hnew, Nat.add_sub_cancel]
    exact Nat.mod_eq_of_lt (by omega)
  refine ⟨?_, ?_, ?_, ?_⟩
  · intro k hk hle
    refine ⟨?_, hrow k hk (by omega)⟩
    rw [hret k hk, Nat.mod_eq_of_lt (by omega)]
    exact decide_eq_true (by omega)
  · have h := hret (r.rows + 1) (by omega)
    rw [Nat.add_sub_cancel] at h
    rw [h, Nat.mod_eq_of_lt (by omega)]
    exact decide_eq_false (by omega)
  · intro k hk hle
    rw [hret k (by omega), Nat.mod_eq_of_lt (by omega)]
    exact decide_eq_false (by omega)
  · intro j k hj hjk hk
    rw [hrow j hj (by omega), hrow k (by omega) hk]
    omega

/-- C23 at the new result set of an execution that read two rows: the first
two calls of `next( )` return true, the third returns false, and the rows
reached after the calls 1, 2 and 3 are 0, 1 and 2. -/
theorem C23_cursor_advances_until_wrap_witness :
    ((SQLiteStatement.new ["V"]).execute [[.int64 1], [.int64 2]] (.ok 0)).2.getResults
      = some demoResultSet ∧
    demoResultSet.rows = 2 ∧
    demoResultSet.current = 2 ^ 64 - 1 ∧ demoResultSet.rows < 2 ^ 64 - 1 ∧
    ((demoResultSet.afterNext (1 - 1)).next.1 = true ∧ (demoResultSet.afterNext 1).row = 1 - 1) ∧
    ((demoResultSet.afterNext (2 - 1)).next.1 = true ∧ (demoResultSet.afterNext 2).row = 2 - 1) ∧
    (demoResultSet.afterNext demoResultSet.rows).next.1 = false ∧
    (demoResultSet.afterNext 2).row ≤ (demoResultSet.afterNext 3).row :=
  ⟨by decide, by decide, rfl, by decide,
    (C23_cursor_advances_until_wrap demoResultSet rfl (by decide)).1 1 (by decide) (by decide),
    (C23_cursor_advances_until_wrap demoResultSet rfl (by decide)).1 2 (by decide) (by decide),
    (C23_cursor_advances_until_wrap demoResultSet rfl (by decide)).2.1,
    (C23_cursor_advances_until_wrap demoResultSet rfl (by decide)).2.2.2 2 3 (by decide)
      (by decide) (by norm_num)⟩


/-! ## Iterating over the fields of a result set -/

theorem ResultSet.visitFrom_spec (rs : ResultSet) (hf : rs.fields < 2 ^ 64)
    (hget : ∀ i, i < rs.fields → ∃ p, rs.get i = .ok (some p)) (d : Nat) :
    ∀ (fuel : Nat) (it : forward_iterator), d < fuel → it.column + d = rs.fields →
      it.rs = rs.results →
      (if it.column < rs.fields then rs.get it.column = .ok it.field else it.field = none) →
      ∃ visited, rs.visitFrom ⟨rs.results, rs.fields, none⟩ fuel it = some (.ok visited) ∧
        visited.map (fun p => (Except.ok p : Except Error (Option Nat)))
          = (List.range' it.column d).map rs.get := by
  induction d with
  | zero =>
    intro fuel it hfuel hcol hrs hfield
    obtain ⟨fuel, rfl⟩ : ∃ m, fuel = m + 1 := ⟨fuel - 1, by omega⟩
    have hc : ¬ it.column < rs.fields := by omega
    rw [if_neg hc] at hfield
    refine ⟨[], ?_, rfl⟩
    simp [ResultSet.visitFrom, forward_iterator.equals, hrs, hfield]
  | succ d ih =>
    intro fuel it hfuel hcol hrs hfield
    obtain ⟨fuel, rfl⟩ : ∃ m, fuel = m + 1 := ⟨fuel - 1, by omega⟩
    have hc : it.column < rs.fields := by omega
    rw [if_pos hc] at hfield
    obtain ⟨p, hp⟩ := hget it.column hc
    have hfp : it.field = some p := by
      rw [hp] at hfield
      exact (Except.ok.inj hfield).symm
    have hne : it.equals ⟨rs.results, rs.fields, none⟩ = false := by
      simp [forward_iterator.equals, hfp]
    have hmod : (it.column + 1) % 2 ^ 64 = it.column + 1 := Nat.mod_eq_of_lt (by omega)
    obtain ⟨it1, hnext, hcol1, hrs1, hfield1⟩ : ∃ it1, it.next rs = .ok it1 ∧
        it1.column = it.column + 1 ∧ it1.rs = rs.results ∧
        (if it1.column < rs.fields then rs.get it1.column = .ok it1.field
          else it1.field = none) := by
      by_cases hlt : it.column + 1 < rs.fields
      · obtain ⟨q, hq⟩ := hget (it.column + 1) hlt
        refine ⟨{ it with column := it.column + 1, field := some q }, ?_, rfl, hrs, ?_⟩
        · unfold forward_iterator.next
          rw [hmod, if_pos hlt, hq]
          rfl
        · simp [hlt, hq]
      · refine ⟨{ it with column := it.column + 1, field := none }, ?_, rfl, hrs, ?_⟩
        · unfold forward_iterator.next
          rw [hmod, if_neg hlt]
        · simp [hlt]
    obtain ⟨visited, hv, hmap⟩ := ih fuel it1 (by omega) (by omega) hrs1 hfield1
    refine ⟨it.field :: visited, ?_, ?_⟩
    · simp [ResultSet.visitFrom, hne, hnext, hv]
    · rw [List.range'_succ, List.map_cons, List.map_cons, hmap, hcol1, hfield]

/-- C24. For a wrapper over a backend result set with `f` columns, `f` a
`size_t`, whose `get( i )` returns a field for every `i < f` (as the backends
do): the loop from `begin( )` with `operator++` until the iterator equals
`end( )` ends, within `f + 1` comparisons, and visits exactly `f` fields, the
`i`-th of them `get( i )`, for `i = 0 .. f - 1` in this order; when `f = 0`,
`begin( )` and `end( )` are equal iterators and nothing is visited. -/
theorem C24_iteration_visits_every_field (rs : ResultSet) (fuel : Nat)
    (hf : rs.fields < 2 ^ 64)
    (hget : ∀ i, i < rs.fields → ∃ p, rs.get i = .ok (some p))
    (hfuel : rs.fields < fuel) :
    ∃ visited, rs.visit fuel = some (.ok visited) ∧
      visited.length = rs.fields ∧
      visited.map (fun p => (Except.ok p : Except Error (Option Nat)))
        = (List.range rs.fields).map rs.get ∧
      (rs.fields = 0 → visited = [] ∧
        ∃ first last, rs.begin = .ok first ∧ rs.end = .ok last ∧ first.equals last = true) := by
  have hend : rs.end = .ok ⟨rs.results, rs.fields, none⟩ := by
    simp [ResultSet.end, forward_iterator.new]
  obtain ⟨first, hbegin, hcol, hrs, hfield⟩ : ∃ first, rs.begin = .ok first ∧
      first.column = 0 ∧ first.rs = rs.results ∧
      (if first.column < rs.fields then rs.get first.column = .ok first.field
        else first.field = none) := by
    by_cases hlt : 0 < rs.fields
    · obtain ⟨q, hq⟩ := hget 0 hlt
      exact ⟨⟨rs.results, 0, some q⟩,
        by simp [ResultSet.begin, forward_iterator.new, hlt, hq, Except.map], rfl, rfl,
        by simp [hlt, hq]⟩
    · exact ⟨⟨rs.results, 0, none⟩, by simp [ResultSet.begin, forward_iterator.new, hlt],
        rfl, rfl, by simp [hlt]⟩
  obtain ⟨visited, hv, hmap⟩ :=
    ResultSet.visitFrom_spec rs hf hget rs.fields fuel first hfuel (by omega) hrs hfield
  rw [hcol, ← List.range_eq_range'] at hmap
  have hlen : visited.length = rs.fields := by
    have h := congrArg List.length hmap
    simpa using h
  refine ⟨visited, ?_, hlen, hmap, ?_⟩
  · simp [ResultSet.visit, hbegin, hend, hv]
  · intro h0
    refine ⟨List.length_eq_zero.mp (hlen.trans h0), first, _, hbegin, hend, ?_⟩
    have hnone : first.field = none := by
      rw [hcol, h0] at hfield
      simpa using hfield
    simp [forward_iterator.equals, hrs, hnone]

/-- C24 at a SQLite result set of two columns, where the loop visits the
fields of column 0 and column 1 within three comparisons, and at one of no
column, where `begin( )` equals `end( )` and the loop visits nothing. -/
theorem C24_iteration_visits_every_field_witness :
    (demoWrapper.fields = 2 ∧ demoWrapper.visit 3 = some (.ok [some 0, some 1]) ∧
      ∃ visited, demoWrapper.visit 3 = some (.ok visited) ∧
        visited.length = demoWrapper.fields ∧
        visited.map (fun p => (Except.ok p : Except Error (Option Nat)))
          = (List.range demoWrapper.fields).map demoWrapper.get ∧
        (demoWrapper.fields = 0 → visited = [] ∧
          ∃ first last, demoWrapper.begin = .ok first ∧ demoWrapper.end = .ok last ∧
            first.equals last = true)) ∧
    (emptyWrapper.fields = 0 ∧
      ∃ visited, emptyWrapper.visit 1 = some (.ok visited) ∧
        visited.length = emptyWrapper.fields ∧
        visited.map (fun p => (Except.ok p : Except Error (Option Nat)))
          = (List.range emptyWrapper.fields).map emptyWrapper.get ∧
        (emptyWrapper.fields = 0 → visited = [] ∧
          ∃ first last, emptyWrapper.begin = .ok first ∧ emptyWrapper.end = .ok last ∧
            first.equals last = true)) :=
  ⟨⟨rfl, by decide,
    C24_iteration_visits_every_field demoWrapper 3 (by decide)
      (fun i hi => by
        have h2 : i < 2 := hi
        interval_cases i
        · exact ⟨0, rfl⟩
        · exact ⟨1, rfl⟩)
      (by decide)⟩,
   ⟨rfl, C24_iteration_visits_every_field emptyWrapper 1 (by decide)
      (fun i hi => absurd hi (Nat.not_lt_zero i)) (by decide)⟩⟩


/-! ## Numbering the placeholders of a PostgreSQL query -/

theorem digitChar_inert (n : Nat) : Nat.digitChar (n % 10) ≠ '?' ∧ Nat.digitChar (n % 10) ≠ '\'' := by
  have h : n % 10 < 10 := Nat.mod_lt _ (by norm_num)
  generalize n % 10 = d at h
  interval_cases d <;> decide

theorem toDigitsCore_inert (fuel : Nat) :
    ∀ (n : Nat) (ds : List Char), (∀ c ∈ ds, c ≠ '?' ∧ c ≠ '\'') →
      ∀ c ∈ Nat.toDigitsCore 10 fuel n ds, c ≠ '?' ∧ c ≠ '\'' := by
  induction fuel with
  | zero => intro n ds hds; simpa [Nat.toDigitsCore] using hds
  | succ fuel ih =>
    intro n ds hds
    have hcons : ∀ c ∈ Nat.digitChar (n % 10) :: ds, c ≠ '?' ∧ c ≠ '\'' := by
      intro c hc
      rcases List.mem_cons.mp hc with rfl | hc
      · exact digitChar_inert n
      · exact hds c hc
    unfold Nat.toDigitsCore
    simp only
    split
    · exact hcons
    · exact ih _ _ hcons

theorem toDigitsCore_ne_nil (fuel : Nat) :
    ∀ (n : Nat) (ds : List Char), (ds ≠ [] ∨ 0 < fuel) → Nat.toDigitsCore 10 fuel n ds ≠ [] := by
  induction fuel with
  | zero =>
    intro n ds h
    rcases h with h | h
    · simpa [Nat.toDigitsCore] using h
    · exact absurd h (Nat.lt_irrefl 0)
  | succ fuel ih =>
    intro n ds _
    unfold Nat.toDigitsCore
    simp only
    split
    · exact List.cons_ne_nil _ _
    · exact ih _ _ (Or.inl (List.cons_ne_nil _ _))

theorem uintText_inert (n : Nat) : ∀ c ∈ uintText n, c ≠ '?' ∧ c ≠ '\'' :=
  toDigitsCore_inert (n + 1) n [] (fun c hc => absurd hc (List.not_mem_nil c))

theorem uintText_cons (n : Nat) : ∃ t ts, uintText n = t :: ts := by
  have hne : uintText n ≠ [] := toDigitsCore_ne_nil (n + 1) n [] (Or.inr (Nat.succ_pos n))
  cases h : uintText n with
  | nil => exact absurd h hne
  | cons t ts => exact ⟨t, ts, rfl⟩

theorem getD_append_cons (P T : List Char) (c z : Char) :
    (P ++ c :: T).getD P.length z = c := by
  rw [List.getD_eq_getElem?_getD, List.getElem?_append_right (le_refl _)]
  simp

theorem normalizeLoop_end (fuel : Nat) (P : List Char) (k : Nat) (valid : Bool) :
    normalizeLoop (fuel + 1) P P.length k valid = some (P, k) := by
  simp [normalizeLoop]

theorem normalizeLoop_keep (fuel : Nat) (P T : List Char) (c : Char) (k : Nat) (valid : Bool)
    (h1 : valid = false ∨ c ≠ '?') (h2 : c ≠ '\'') :
    normalizeLoop (fuel + 1) (P ++ c :: T) P.length k valid
      = normalizeLoop fuel ((P ++ [c]) ++ T) (P ++ [c]).length k valid := by
  have hlen : P.length < (P ++ c :: T).length := by simp
  have hget : (P ++ c :: T).getD P.length '\x00' = c := getD_append_cons P T c _
  have hcond : (valid && decide (c = '?')) = false := by
    rcases h1 with h | h <;> simp [h]
  rw [normalizeLoop, if_pos hlen, hget]
  simp [hcond, h2]

theorem normalizeLoop_quote (fuel : Nat) (P T : List Char) (k : Nat) (valid : Bool) :
    normalizeLoop (fuel + 1) (P ++ '\'' :: T) P.length k valid
      = normalizeLoop fuel ((P ++ ['\'']) ++ T) (P ++ ['\'']).length k (!valid) := by
  have hlen : P.length < (P ++ '\'' :: T).length := by simp
  have hget : (P ++ '\'' :: T).getD P.length '\x00' = '\'' := getD_append_cons P T _ _
  rw [normalizeLoop, if_pos hlen, hget]
  simp

theorem normalizeLoop_param (fuel : Nat) (P T : List Char) (k : Nat) :
    normalizeLoop (fuel + 1) (P ++ '?' :: T) P.length k true
      = normalizeLoop fuel (P ++ ('$' :: uintText k) ++ T) (P.length + 1 + 1)
          ((k + 1) % 2 ^ 32) true := by
  have hlen : P.length < (P ++ '?' :: T).length := by simp
  have hget : (P ++ '?' :: T).getD P.length '\x00' = '?' := getD_append_cons P T _ _
  have htake : (P ++ '?' :: T).take P.length = P := by simp
  have hdrop : (P ++ '?' :: T).drop (P.length + 1) = T := by simp
  rw [normalizeLoop, if_pos hlen, hget, htake, hdrop]
  simp

theorem normalizeLoop_spec :
    ∀ (fuel : Nat) (P D R : List Char) (k : Nat) (valid : Bool),
      (∀ c ∈ D, c ≠ '?' ∧ c ≠ '\'') →
      D.length + (numbered R k valid).length < fuel →
      k + placeholderCount R valid < 2 ^ 32 →
      normalizeLoop fuel (P ++ (D ++ R)) P.length k valid
        = some (P ++ (D ++ numbered R k valid), k + placeholderCount R valid) := by
  intro fuel
  induction fuel with
  | zero => intro P D R k valid _ h _; omega
  | succ fuel ih =>
    intro P D R k valid hD hfuel hk
    cases D with
    | cons d D1 =>
      have hd := hD d (by simp)
      have h := ih (P ++ [d]) D1 R k valid (fun c hc => hD c (by simp [hc]))
        (by simp only [List.length_cons] at hfuel; omega) hk
      rw [List.cons_append, normalizeLoop_keep fuel P (D1 ++ R) d k valid (Or.inr hd.1) hd.2, h]
      simp
    | nil =>
      cases R with
      | nil => simpa [numbered, placeholderCount] using normalizeLoop_end fuel P k valid
      | cons c R1 =>
        by_cases hq : valid = true ∧ c = '?'
        · obtain ⟨hv, hc⟩ := hq
          subst hv
          subst hc
          obtain ⟨t, ts, hts⟩ := uintText_cons k
          have hinert := uintText_inert k
          rw [hts] at hinert
          have hnum : numbered ('?' :: R1) k true = '$' :: t :: (ts ++ numbered R1 (k + 1) true) := by
            simp [numbered, hts]
          have hcount : placeholderCount ('?' :: R1) true = placeholderCount R1 true + 1 := by
            simp [placeholderCount]
          rw [hnum] at hfuel
          rw [hcount] at hk
          have hmod : (k + 1) % 2 ^ 32 = k + 1 := Nat.mod_eq_of_lt (by omega)
          have h := ih (P ++ ['$', t]) ts R1 (k + 1) true
            (fun c hc => hinert c (by simp [hc]))
            (by simp only [List.length_cons, List.length_append, List.nil_append] at hfuel ⊢
                omega)
            (by omega)
          have hq1 : P ++ ('$' :: uintText k) ++ R1 = (P ++ ['$', t]) ++ (ts ++ R1) := by
            simp [hts]
          have hl1 : P.length + 1 + 1 = (P ++ ['$', t]).length := by simp
          rw [List.nil_append, normalizeLoop_param, hmod, hq1, hl1, h, hnum, hcount]
          simp
          omega
        · by_cases hc : c = '\''
          · subst hc
            have hnum : numbered ('\'' :: R1) k valid = '\'' :: numbered R1 k (!valid) := by
              cases valid <;> simp [numbered]
            have hcount : placeholderCount ('\'' :: R1) valid = placeholderCount R1 (!valid) := by
              cases valid <;> simp [placeholderCount]
            rw [hnum] at hfuel
            rw [hcount] at hk
            have h := ih (P ++ ['\'']) [] R1 k (!valid) (fun c hc => by simp at hc)
              (by simp only [List.length_cons, List.length_nil] at hfuel ⊢; omega) hk
            simp only [List.nil_append] at h
            rw [List.nil_append, normalizeLoop_quote, h, hnum, hcount]
            simp
          · have hor : valid = false ∨ c ≠ '?' := by
              by_cases hv : valid = true
              · exact Or.inr (fun h => hq ⟨hv, h⟩)
              · exact Or.inl (by simpa using hv)
            have hcond : (valid && decide (c = '?')) = false := by
              rcases hor with h | h <;> simp [h]
            have hnum : numbered (c :: R1) k valid = c :: numbered R1 k valid := by
              simp [numbered, hcond, hc]
            have hcount : placeholderCount (c :: R1) valid = placeholderCount R1 valid := by
              simp [placeholderCount, hcond, hc]
            rw [hnum] at hfuel
            rw [hcount] at hk
            have h := ih (P ++ [c]) [] R1 k valid (fun c hc => by simp at hc)
              (by simp only [List.length_cons, List.length_nil] at hfuel ⊢; omega) hk
            simp only [List.nil_append] at h
            rw [List.nil_append, normalizeLoop_keep fuel P R1 c k valid hor hc, h, hnum, hcount]
            simp

theorem normalizeParameters_spec (fuel : Nat) (q : String)
    (hm : placeholderCount q.toList true < 2 ^ 32 - 1)
    (hfuel : (numbered q.toList 1 true).length < fuel) :
    normalizeParameters fuel q
      = some (toSigned 32 (placeholderCount q.toList true),
          String.mk (numbered q.toList 1 true)) := by
  have h := normalizeLoop_spec fuel [] [] q.toList 1 true (fun c hc => by simp at hc)
    (by simpa using hfuel) (by omega)
  simp only [List.nil_append, List.length_nil] at h
  unfold normalizeParameters
  rw [h]
  simp only [Option.map_some']
  have hmod : (1 + placeholderCount q.toList true + 2 ^ 32 - 1) % 2 ^ 32
      = placeholderCount q.toList true := by
    omega
  rw [hmod]

/-- Some bound on the rounds lets `normalizeParameters` end with its result. -/
theorem normalizeParameters_returns (q : String)
    (hm : placeholderCount q.toList true < 2 ^ 32 - 1) :
    ∃ fuel, normalizeParameters fuel q
      = some (toSigned 32 (placeholderCount q.toList true),
          String.mk (numbered q.toList 1 true)) :=
  ⟨_, normalizeParameters_spec _ q hm (Nat.lt_succ_self _)⟩

/-- C28. For every query text `q` whose number `m` of question marks outside
single-quoted sections is below `2^32 - 1`, so that the `uint32_t` counter
`bindNum` does not wrap: `normalizeParameters` ends, within as many rounds as
its output has characters, and its output is `q` with the `k`-th of these
question marks, `k = 1 .. m` from the left, replaced by `$` and `k` in
decimal, every other character kept in place and in order, also the question
marks inside quotes and also when `m` is 10 or more. The function returns `m`
when `m < 2^31`; from `2^31` on the `int32_t` it returns is `m - 2^32`. -/
theorem C28_placeholders_numbered (fuel : Nat) (q : String)
    (hm : placeholderCount q.toList true < 2 ^ 32 - 1)
    (hfuel : (numbered q.toList 1 true).length < fuel) :
    normalizeParameters fuel q
      = some
        (if placeholderCount q.toList true < 2 ^ 31 then (placeholderCount q.toList true : Int)
          else (placeholderCount q.toList true : Int) - 2 ^ 32,
        String.mk (numbered q.toList 1 true)) := by
  rw [normalizeParameters_spec fuel q hm hfuel]
  have hs : toSigned 32 (placeholderCount q.toList true)
      = (if placeholderCount q.toList true < 2 ^ 31 then (placeholderCount q.toList true : Int)
          else (placeholderCount q.toList true : Int) - 2 ^ 32) := by
    unfold toSigned
    have h1 : placeholderCount q.toList true % 2 ^ 32 = placeholderCount q.toList true :=
      Nat.mod_eq_of_lt (by omega)
    have h2 : (2 : Nat) ^ (32 - 1) = 2 ^ 31 := rfl
    rw [h1, h2]
  rw [hs]

/-- C28 at a query with two placeholders and a quoted question mark, and at one
with twelve placeholders: the counts 2 and 12 are returned, the outputs carry
`$1`, `$2` and `$1` to `$12`, and the quoted question mark is kept. -/
theorem C28_placeholders_numbered_witness :
    (placeholderCount "select ? , '?' , ?".toList true < 2 ^ 32 - 1 ∧
      (numbered "select ? , '?' , ?".toList 1 true).length < 100 ∧
      normalizeParameters 100 "select ? , '?' , ?"
        = some
          (if placeholderCount "select ? , '?' , ?".toList true < 2 ^ 31 then
            (placeholderCount "select ? , '?' , ?".toList true : Int)
            else (placeholderCount "select ? , '?' , ?".toList true : Int) - 2 ^ 32,
          String.mk (numbered "select ? , '?' , ?".toList 1 true)) ∧
      placeholderCount "select ? , '?' , ?".toList true = 2 ∧
      String.mk (numbered "select ? , '?' , ?".toList 1 true) = "select $1 , '?' , $2" ∧
      normalizeParameters 100 "select ? , '?' , ?" = some (2, "select $1 , '?' , $2")) ∧
    (normalizeParameters 100 "? ? ? ? ? ? ? ? ? ? ? ?x"
        = some
          (if placeholderCount "? ? ? ? ? ? ? ? ? ? ? ?x".toList true < 2 ^ 31 then
            (placeholderCount "? ? ? ? ? ? ? ? ? ? ? ?x".toList true : Int)
            else (placeholderCount "? ? ? ? ? ? ? ? ? ? ? ?x".toList true : Int) - 2 ^ 32,
          String.mk (numbered "? ? ? ? ? ? ? ? ? ? ? ?x".toList 1 true)) ∧
      placeholderCount "? ? ? ? ? ? ? ? ? ? ? ?x".toList true = 12 ∧
      String.mk (numbered "? ? ? ? ? ? ? ? ? ? ? ?x".toList 1 true)
        = "$1 $2 $3 $4 $5 $6 $7 $8 $9 $10 $11 $12x" ∧
      normalizeParameters 100 "? ? ? ? ? ? ? ? ? ? ? ?x"
        = some (12, "$1 $2 $3 $4 $5 $6 $7 $8 $9 $10 $11 $12x")) := by
  have n1 : numbered "select ? , '?' , ?".toList 1 true = "select $1 , '?' , $2".toList := by
    decide
  have n2 : numbered "? ? ? ? ? ? ? ? ? ? ? ?x".toList 1 true
      = "$1 $2 $3 $4 $5 $6 $7 $8 $9 $10 $11 $12x".toList := by
    decide
  have l1 : (numbered "select ? , '?' , ?".toList 1 true).length < 100 := by
    rw [n1]; decide
  have l2 : (numbered "? ? ? ? ? ? ? ? ? ? ? ?x".toList 1 true).length < 100 := by
    rw [n2]; decide
  have c1 : placeholderCount "select ? , '?' , ?".toList true = 2 := by decide
  have c2 : placeholderCount "? ? ? ? ? ? ? ? ? ? ? ?x".toList true = 12 := by decide
  have r1 := C28_placeholders_numbered 100 "select ? , '?' , ?" (by rw [c1]; norm_num) l1
  have r2 := C28_placeholders_numbered 100 "? ? ? ? ? ? ? ? ? ? ? ?x" (by rw [c2]; norm_num) l2
  refine ⟨⟨by rw [c1]; norm_num, l1, r1, c1, by rw [n1]; decide, ?_⟩,
    ⟨r2, c2, by rw [n2]; decide, ?_⟩⟩
  · rw [r1, c1, n1]
    decide
  · rw [r2, c2, n2]
    decide

end dbcpp
